import Mathlib

/-!
# Verification of the drawpyo reader/writer pipeline

Shallow embedding of the drawpyo source (style parser, compression codec,
drawio XML parser, XML-to-object converter, and object-to-XML writer) and
proofs about it.

Modelling conventions:
* Python strings are `List Char` (or `List Nat` of code points where byte
  level matters); bytes are `List Nat` with values below 256.
* Python dictionaries are association lists with Python's insertion-order
  update semantics (`pyInsert` / `pyLookup`).
* Fallible Python code (paths that raise) returns `Option`.
* External libraries (`zlib`) are modelled by a structure of functions
  together with their documented contract; `base64` and UTF-8 encoding are
  implemented concretely, following CPython's semantics.
-/

/-! ## Generic helpers modelling Python builtins -/

/-- Update-or-append insertion into an association list, modelling Python
`dict[key] = value`: an existing key keeps its position and receives the new
value, a new key is appended at the end. -/
def pyInsert {κ α : Type} [DecidableEq κ] : List (κ × α) → κ → α → List (κ × α)
  | [], k, v => [(k, v)]
  | (k', v') :: rest, k, v =>
    if k' = k then (k, v) :: rest else (k', v') :: pyInsert rest k v

/-- Association-list lookup, modelling Python `dict.get(key)`. -/
def pyLookup {κ α : Type} [DecidableEq κ] : List (κ × α) → κ → Option α
  | [], _ => none
  | (k', v') :: rest, k => if k' = k then some v' else pyLookup rest k

/-- Python `dict.get(key, default)`. -/
def pyGetD {κ α : Type} [DecidableEq κ] (d : List (κ × α)) (k : κ) (dflt : α) : α :=
  (pyLookup d k).getD dflt

/-- The character for a decimal digit `d < 10`. -/
def digitChar (d : Nat) : Char := Char.ofNat (48 + d)

/-- Decimal rendering with a fuel bound (structural, so it computes in the
kernel); the fuel never runs out when it exceeds the number. -/
def natToCharsAux : Nat → Nat → List Char
  | 0, _ => []
  | fuel + 1, n =>
    if n < 10 then [digitChar n]
    else natToCharsAux fuel (n / 10) ++ [digitChar (n % 10)]

/-- Decimal rendering of a natural number, modelling Python `str(int)`. -/
def natToChars (n : Nat) : List Char := natToCharsAux (n + 1) n

/-- Value of a string of decimal digits, modelling Python `int(str)` on an
all-digit string. -/
def digitsToNat (cs : List Char) : Nat :=
  cs.foldl (fun acc c => acc * 10 + (c.toNat - 48)) 0

/-- Splitting a string on `';'`, modelling Python `str.split(';')` (so the
result is never empty, and empty segments are kept). -/
def splitSemi : List Char → List (List Char)
  | [] => [[]]
  | c :: cs =>
    if c = ';' then [] :: splitSemi cs
    else
      match splitSemi cs with
      | [] => [[c]]
      | p :: ps => (c :: p) :: ps

/-- Joining strings with `';'`, modelling Python `';'.join(parts)`. -/
def joinSemi : List (List Char) → List Char
  | [] => []
  | [p] => p
  | p :: ps => p ++ ';' :: joinSemi ps

/-- The part of `part` before the first `'='`, modelling the first component
of Python `part.split('=', 1)`. -/
def keyOf : List Char → List Char
  | [] => []
  | c :: cs => if c = '=' then [] else c :: keyOf cs

/-- The part of `part` after the first `'='`, modelling the second component
of Python `part.split('=', 1)`. -/
def valOf : List Char → List Char
  | [] => []
  | c :: cs => if c = '=' then cs else valOf cs

/-- ASCII model of Python `str.isdigit` (true on nonempty all-digit
strings; non-ASCII Unicode digits are outside the modelled alphabet). -/
def pyIsDigit (v : List Char) : Bool :=
  !v.isEmpty && v.all (·.isDigit)

/-- ASCII model of Python `str.lower`. -/
def pyLower (v : List Char) : List Char := v.map Char.toLower

/-- Model of Python `value.replace('.', '', 1)`: remove the first `'.'`. -/
def removeFirstDot : List Char → List Char
  | [] => []
  | c :: cs => if c = '.' then cs else c :: removeFirstDot cs

/-- Number of characters after the first `'.'` (the decimal scale of a
float literal). -/
def fracLen : List Char → Nat
  | [] => 0
  | c :: cs => if c = '.' then cs.length else fracLen cs

/-- ASCII model of the whitespace set of Python `str.strip()`. -/
def pySpace (c : Char) : Bool :=
  c = ' ' ∨ c = '\t' ∨ c = '\n' ∨ c = '\r' ∨ c.toNat = 11 ∨ c.toNat = 12

/-- Model of Python `str.strip()` over the ASCII whitespace set. -/
def pyStrip (s : List Char) : List Char :=
  ((s.dropWhile pySpace).reverse.dropWhile pySpace).reverse

/-! ## StyleParser (`src/drawpyo/reader/style_parser.py`)

A parsed style value.  Python stores ints, floats, bools, strings and
`None`; floats are modelled exactly as the decimal literal's mantissa and
scale (value `m / 10^s`), which is faithful for the branch structure of the
parser (float formatting in `str(float)` is modelled only in the
normal digits-dot-digits regime, see `floatRepr`). -/

inductive StyleValue : Type
  | str : List Char → StyleValue
  | int : Nat → StyleValue
  | float : Nat → Nat → StyleValue
  | bool : Bool → StyleValue
  | pyNone : StyleValue
deriving DecidableEq, Repr

/-- A Python dict of style attributes, in insertion order. -/
abbrev StyleDict := List (List Char × StyleValue)

/-- The distinguished key used for the leading bare style segment. -/
def baseStyleKey : List Char := "baseStyle".toList

/-- Strip trailing zeros of the fractional digit string. -/
def stripTrailZeros (ds : List Char) : List Char :=
  (ds.reverse.dropWhile (· = '0')).reverse

/-- Rendering of a float value `m / 10^s` as `str(float)` would in the
ordinary digits-dot-digits regime: integer part, `'.'`, fractional part
with trailing zeros removed (at least one fractional digit). -/
def floatRepr (m s : Nat) : List Char :=
  let intPart := natToChars (m / 10 ^ s)
  let fracDigits := stripTrailZeros (natToChars (m % 10 ^ s + 10 ^ s)).tail
  intPart ++ '.' :: (if fracDigits.isEmpty then ['0'] else fracDigits)

/-- Value coercion of `StyleParser.parse_style`, translated branch by branch
from the source: all-digit string to int; one-dot digit string to float;
case-insensitive true/false to bool; anything else stays a string. -/
def coerce_value (value : List Char) : StyleValue :=
  if pyIsDigit value then .int (digitsToNat value)
  else if pyIsDigit (removeFirstDot value) ∧ value.count '.' = 1 then
    .float (digitsToNat (removeFirstDot value)) (fracLen value)
  else if pyLower value = "true".toList then .bool true
  else if pyLower value = "false".toList then .bool false
  else .str value

/-- One iteration of the `for i, part in enumerate(parts)` loop body of
`StyleParser.parse_style`. -/
def styleStep (i : Nat) (part : List Char) (d : StyleDict) : StyleDict :=
  if part = [] then d
  else if i = 0 ∧ ¬ part.contains '=' then pyInsert d baseStyleKey (.str part)
  else if part.contains '=' then pyInsert d (keyOf part) (coerce_value (valOf part))
  else d

/-- The enumerated loop of `StyleParser.parse_style`. -/
def styleFold : List (List Char) → Nat → StyleDict → StyleDict
  | [], _, d => d
  | p :: ps, i, d => styleFold ps (i + 1) (styleStep i p d)

/-- `StyleParser.parse_style`, translated from the source. -/
def parse_style (style_str : List Char) : StyleDict :=
  if style_str = [] then [] else styleFold (splitSemi style_str) 0 []

/-- Python `str(value)` for a style value (`str(None)` is `"None"`). -/
def renderValue : StyleValue → List Char
  | .str s => s
  | .int n => natToChars n
  | .float m s => floatRepr m s
  | .bool true => "True".toList
  | .bool false => "False".toList
  | .pyNone => "None".toList

/-- `StyleParser.create_style`, translated from the source: the base style
is emitted first, bare; the remaining entries are emitted as `key=value` in
dict order, skipping `None` values; parts are joined with `';'`. -/
def create_style (style_dict : StyleDict) : List Char :=
  if style_dict = [] then []
  else
    let baseParts : List (List Char) :=
      match pyLookup style_dict baseStyleKey with
      | some v => [renderValue v]
      | none => []
    let kvParts : List (List Char) :=
      style_dict.filterMap fun kv =>
        if kv.1 ≠ baseStyleKey ∧ kv.2 ≠ .pyNone then
          some (kv.1 ++ '=' :: renderValue kv.2)
        else none
    joinSemi (baseParts ++ kvParts)

/-- Python `==` on two style dicts: Python dict equality ignores insertion
order, so two dicts are equal when every key looks up to the same value. -/
def dictEquiv (d₁ d₂ : StyleDict) : Prop :=
  ∀ q : List Char, pyLookup d₁ q = pyLookup d₂ q

/-- Modelled from the amended claim for the segment handling of
`parse_style`: the segment at index 0 of the split (not the first non-empty
segment) becomes the base style when it is non-empty and `'='`-free; later
`'='`-free segments are dropped; every `'='` segment is split at its first
`'='`; empty segments are skipped. -/
def parse_style_amended_spec (style_str : List Char) : StyleDict :=
  if style_str = [] then []
  else
    match splitSemi style_str with
    | [] => []
    | p :: ps =>
      let d0 : StyleDict :=
        if p = [] then []
        else if ¬ p.contains '=' then [(baseStyleKey, .str p)]
        else [(keyOf p, coerce_value (valOf p))]
      ps.foldl
        (fun d q =>
          if q = [] then d
          else if q.contains '=' then pyInsert d (keyOf q) (coerce_value (valOf q))
          else d)
        d0

/-! ## Compression codec (`src/drawpyo/reader/decompressor.py`)

Base64 is implemented concretely, following CPython's `binascii.a2b_base64`
in its default non-strict mode (invalid characters are skipped; a pad
sequence completing a quad of 2 or 3 data characters stops decoding; a
dangling quad at the end is an error).  UTF-8 encode/decode follow CPython's
strict codec.  `zlib` is an external library and is modelled by the `Zlib`
structure bundling its documented contract. -/

/-- The base64 alphabet character (as a byte) of a sextet value below 64. -/
def e6 (v : Nat) : Nat :=
  if v < 26 then 65 + v
  else if v < 52 then 71 + v
  else if v < 62 then v - 4
  else if v = 62 then 43
  else 47

/-- The sextet value of a base64 alphabet byte (`none` for bytes outside
the alphabet; the pad byte 61 is handled by the decoder loop). -/
def d6 (c : Nat) : Option Nat :=
  if 65 ≤ c ∧ c ≤ 90 then some (c - 65)
  else if 97 ≤ c ∧ c ≤ 122 then some (c - 71)
  else if 48 ≤ c ∧ c ≤ 57 then some (c + 4)
  else if c = 43 then some 62
  else if c = 47 then some 63
  else none

/-- Standard base64 encoding with padding, modelling `base64.b64encode`. -/
def b64encode : List Nat → List Nat
  | [] => []
  | [b1] => [e6 (b1 / 4), e6 (b1 % 4 * 16), 61, 61]
  | [b1, b2] => [e6 (b1 / 4), e6 (b1 % 4 * 16 + b2 / 16), e6 (b2 % 16 * 4), 61]
  | b1 :: b2 :: b3 :: rest =>
    e6 (b1 / 4) :: e6 (b1 % 4 * 16 + b2 / 16) :: e6 (b2 % 16 * 4 + b3 / 64) ::
      e6 (b3 % 64) :: b64encode rest

/-- The decoding loop of CPython's `binascii.a2b_base64` (non-strict mode).
State: remaining input, position in the current quad (0–3), pending bits,
count of pad bytes seen in the current quad. -/
def b64run : List Nat → Nat → Nat → Nat → Option (List Nat)
  | [], qp, _, _ => if qp = 0 then some [] else none
  | c :: cs, qp, left, pads =>
    if c = 61 then
      if 2 ≤ qp then
        if 4 ≤ qp + (pads + 1) then some []
        else b64run cs qp left (pads + 1)
      else b64run cs qp left pads
    else
      match d6 c with
      | none => b64run cs qp left pads
      | some v =>
        match qp with
        | 0 => b64run cs 1 v 0
        | 1 => (b64run cs 2 ((left * 64 + v) % 16) 0).map ((left * 64 + v) / 16 :: ·)
        | 2 => (b64run cs 3 ((left * 64 + v) % 4) 0).map ((left * 64 + v) / 4 :: ·)
        | _ => (b64run cs 0 0 0).map ((left * 64 + v) :: ·)

/-- `base64.b64decode` on a Python string: the string must be ASCII, then
the non-strict decoding loop runs; `none` models the raised error. -/
def b64decodePy (s : List Nat) : Option (List Nat) :=
  if s.all (· < 128) then b64run s 0 0 0 else none

/-- UTF-8 encoding of one Unicode scalar value. -/
def utf8EncodeChar (c : Nat) : List Nat :=
  if c < 128 then [c]
  else if c < 2048 then [192 + c / 64, 128 + c % 64]
  else if c < 65536 then [224 + c / 4096, 128 + c / 64 % 64, 128 + c % 64]
  else [240 + c / 262144, 128 + c / 4096 % 64, 128 + c / 64 % 64, 128 + c % 64]

/-- UTF-8 encoding of a sequence of scalar values (`str.encode('utf-8')`). -/
def utf8Encode : List Nat → List Nat
  | [] => []
  | c :: cs => utf8EncodeChar c ++ utf8Encode cs

/-- Continuation handling for a 2-byte UTF-8 lead byte `b`: one
continuation byte, decoded through the supplied decoder for the rest. -/
def utf8Tail2 (dec : List Nat → Option (List Nat)) (b : Nat) : List Nat → Option (List Nat)
  | b2 :: bs2 =>
    if 128 ≤ b2 ∧ b2 < 192 then
      (dec bs2).map (((b - 192) * 64 + (b2 - 128)) :: ·)
    else none
  | [] => none

/-- Continuation handling for a 3-byte UTF-8 lead byte `b`: two
continuation bytes, rejecting overlong forms and surrogates. -/
def utf8Tail3 (dec : List Nat → Option (List Nat)) (b : Nat) : List Nat → Option (List Nat)
  | b2 :: b3 :: bs2 =>
    if 128 ≤ b2 ∧ b2 < 192 ∧ 128 ≤ b3 ∧ b3 < 192 ∧
        2048 ≤ (b - 224) * 4096 + (b2 - 128) * 64 + (b3 - 128) ∧
        ¬ (55296 ≤ (b - 224) * 4096 + (b2 - 128) * 64 + (b3 - 128) ∧
          (b - 224) * 4096 + (b2 - 128) * 64 + (b3 - 128) ≤ 57343) then
      (dec bs2).map (((b - 224) * 4096 + (b2 - 128) * 64 + (b3 - 128)) :: ·)
    else none
  | _ => none

/-- Continuation handling for a 4-byte UTF-8 lead byte `b`: three
continuation bytes, rejecting overlong and out-of-range forms. -/
def utf8Tail4 (dec : List Nat → Option (List Nat)) (b : Nat) : List Nat → Option (List Nat)
  | b2 :: b3 :: b4 :: bs2 =>
    if 128 ≤ b2 ∧ b2 < 192 ∧ 128 ≤ b3 ∧ b3 < 192 ∧ 128 ≤ b4 ∧ b4 < 192 ∧
        65536 ≤ (b - 240) * 262144 + (b2 - 128) * 4096 + (b3 - 128) * 64 + (b4 - 128) ∧
        (b - 240) * 262144 + (b2 - 128) * 4096 + (b3 - 128) * 64 + (b4 - 128) < 1114112 then
      (dec bs2).map
        (((b - 240) * 262144 + (b2 - 128) * 4096 + (b3 - 128) * 64 + (b4 - 128)) :: ·)
    else none
  | _ => none

/-- Strict UTF-8 decoding (`bytes.decode('utf-8')`), with a fuel bound
that never runs out when it reaches the byte count: rejects stray
continuation bytes, overlong forms, surrogates and out-of-range values;
`none` models the raised error. -/
def utf8DecodeAux : Nat → List Nat → Option (List Nat)
  | _, [] => some []
  | 0, _ :: _ => none
  | fuel + 1, b :: bs =>
    if b < 128 then (utf8DecodeAux fuel bs).map (b :: ·)
    else if b < 194 then none
    else if b < 224 then utf8Tail2 (utf8DecodeAux fuel) b bs
    else if b < 240 then utf8Tail3 (utf8DecodeAux fuel) b bs
    else if b < 245 then utf8Tail4 (utf8DecodeAux fuel) b bs
    else none

/-- Strict UTF-8 decoding of a byte string (`bytes.decode('utf-8')`). -/
def utf8Decode (bs : List Nat) : Option (List Nat) := utf8DecodeAux bs.length bs

/-- A Unicode scalar value that `str.encode('utf-8')` accepts (Python
strings may hold lone surrogates, which fail to encode). -/
abbrev ValidScalar (c : Nat) : Prop := c < 1114112 ∧ ¬ (55296 ≤ c ∧ c ≤ 57343)

/-- The `zlib` library as used by the decompressor, together with its
documented contract.  `zlib.compress(data, 9)` produces a 2-byte header, a
raw-deflate body and a 4-byte Adler-32 checksum; `zlib.decompress(data,
-zlib.MAX_WBITS)` inverts the raw-deflate body and errors (`none`) on an
empty stream, since no deflate stream is empty. -/
structure Zlib where
  deflateBody : List Nat → List Nat
  header : List Nat
  checksum : List Nat → List Nat
  inflateRaw : List Nat → Option (List Nat)
  header_len : header.length = 2
  checksum_len : ∀ bs, (checksum bs).length = 4
  body_bytes : ∀ bs, (∀ b ∈ bs, b < 256) → ∀ b ∈ deflateBody bs, b < 256
  inflate_body : ∀ bs, (∀ b ∈ bs, b < 256) → inflateRaw (deflateBody bs) = some bs
  inflate_nil : inflateRaw [] = none

/-- `zlib.compress(data, 9)`: header, raw-deflate body, checksum. -/
def Zlib.compress (z : Zlib) (bs : List Nat) : List Nat :=
  z.header ++ z.deflateBody bs ++ z.checksum bs

/-- Python slice `data[2:-4]`. -/
def pySlice2Neg4 (l : List Nat) : List Nat := (l.drop 2).take (l.length - 6)

namespace DrawioDecompressor

/-- `DrawioDecompressor.is_compressed`, translated from the source: false
when the content has both angle brackets, otherwise true exactly when
`base64.b64decode` succeeds on it. -/
def is_compressed (content : List Nat) : Bool :=
  if content.contains 60 && content.contains 62 then false
  else (b64decodePy content).isSome

/-- `DrawioDecompressor.decompress`, translated from the source:
base64-decode, raw-deflate decompress, UTF-8 decode; `none` models the
wrapped `ValueError`. -/
def decompress (z : Zlib) (content : List Nat) : Option (List Nat) :=
  match b64decodePy content with
  | none => none
  | some decoded =>
    match z.inflateRaw decoded with
    | none => none
    | some decompressed => utf8Decode decompressed

/-- `DrawioDecompressor.compress`, translated from the source: UTF-8
encode, `zlib.compress(·, 9)`, strip the 2-byte header and 4-byte checksum
with `[2:-4]`, base64-encode (the base64 output is ASCII, so decoding the
result to a `str` keeps the same code points). -/
def compress (z : Zlib) (content : List Nat) : List Nat :=
  b64encode (pySlice2Neg4 (z.compress (utf8Encode content)))

end DrawioDecompressor

/-! ## Markup parser (`src/drawpyo/reader/parser.py`)

`xml.etree.ElementTree` is external; an already-tree-shaped `mxfile`
element is the input (tag, attributes, diagram children with raw text
content), and the inner XML parse of decompressed content is a parameter
function.  `none` models a raised `ValueError`. -/

/-- Whitespace for Python `str.strip()` on code points (ASCII set). -/
def pySpaceN (c : Nat) : Bool :=
  c = 32 ∨ c = 9 ∨ c = 10 ∨ c = 13 ∨ c = 11 ∨ c = 12

/-- Python `str.strip()` on code points. -/
def pyStripN (s : List Nat) : List Nat :=
  ((s.dropWhile pySpaceN).reverse.dropWhile pySpaceN).reverse

/-- Sequential fallible processing of a list, modelling a Python `for`
loop whose body may raise: the first raising element aborts the whole
call. -/
def optionMapM {α β : Type} (f : α → Option β) : List α → Option (List β)
  | [] => some []
  | a :: as =>
    match f a with
    | none => none
    | some b =>
      match optionMapM f as with
      | none => none
      | some bs => some (b :: bs)

/-- A `<diagram>` child of the `mxfile` root: attributes and raw text
content (`none` models a missing text node). -/
structure XDiagram where
  id : List Char
  name : List Char
  text : Option (List Nat)

/-- The parsed `<mxfile>` root element. -/
structure XMxfile where
  tag : List Char
  host : Option (List Char)
  modified : Option (List Char)
  agent : Option (List Char)
  version : Option (List Char)
  type : Option (List Char)
  diagrams : List XDiagram

/-- The `file_info` dict built by `DrawioParser`: every key is present,
missing attributes default to the empty string (`root.get(attr, '')`). -/
def parse_file_info (root : XMxfile) : List (List Char × List Char) :=
  [("host".toList, root.host.getD []),
   ("modified".toList, root.modified.getD []),
   ("agent".toList, root.agent.getD []),
   ("version".toList, root.version.getD []),
   ("type".toList, root.type.getD [])]

/-- `content = diagram_elem.text.strip() if diagram_elem.text else ''`. -/
def rawContent (text : Option (List Nat)) : List Nat :=
  match text with
  | some t => if t = [] then [] else pyStripN t
  | none => []

/-- The per-diagram content handling of `DrawioParser.parse_xml_string`:
strip the text, decompress when `is_compressed` says so; `none` models the
re-raised decompression `ValueError`. -/
def parse_diagram_content (z : Zlib) (text : Option (List Nat)) : Option (List Nat) :=
  let content := rawContent text
  if DrawioDecompressor.is_compressed content then DrawioDecompressor.decompress z content
  else some content

/-- `DrawioParser.parse_xml_string` on an already-tree-shaped root, with
the inner `ET.fromstring` supplied as `xmlFromString`; `none` models a
raised `ValueError` (wrong root tag, failed decompression, or failed inner
parse). -/
def parse_xml_string {XTree : Type} (z : Zlib) (xmlFromString : List Nat → Option XTree)
    (root : XMxfile) :
    Option (List (List Char × List Char) × List (List Char × List Char × XTree)) :=
  if root.tag ≠ "mxfile".toList then none
  else
    match optionMapM (fun d => do
        let content ← parse_diagram_content z d.text
        let tree ← xmlFromString content
        pure (d.id, d.name, tree)) root.diagrams with
    | none => none
    | some ds => some (parse_file_info root, ds)

/-! ## Model converter, import side (`src/drawpyo/reader/converter.py`) -/

/-- An `mxGeometry` child element (attribute strings parsed by `float` are
modelled as integer-valued attributes). -/
structure MxGeo where
  x : Option Int
  y : Option Int
  width : Option Int
  height : Option Int

/-- An `mxCell` element as the converter reads it (each `cell.get(attr)`
is an `Option`). -/
structure MxCellIn where
  id : Option (List Char)
  vertexAttr : Option (List Char)
  edgeAttr : Option (List Char)
  value : Option (List Char)
  style : Option (List Char)
  parent : Option (List Char)
  source : Option (List Char)
  target : Option (List Char)
  geometry : Option MxGeo

/-- `cell_id in ('0', '1')`. -/
def reservedId : Option (List Char) → Bool
  | some s => s = "0".toList ∨ s = "1".toList
  | none => false

/-- A shape element's data. -/
structure ShapeObj where
  value : List Char
  style : List Char
  position : Int × Int
  width : Int
  height : Int
deriving DecidableEq, Repr

/-- Modelled from the spec: the `diagram.objects.Object` constructor (the
`diagram` module is not under `src/`) initializes an element at position
(0, 0) with width 120 and height 60 ("a vertex cell with no geometry
element imports to position (0,0), width 120, height 60", spec section 8);
`apply_style_string` is modelled as storing the applied style string. -/
def defaultObject : ShapeObj :=
  { value := [], style := [], position := (0, 0), width := 120, height := 60 }

/-- `XmlToPythonConverter._create_vertex_from_cell`, translated from the
source: value and style from the cell attributes, geometry from the
`mxGeometry` child when present (fields defaulting to x=0, y=0, width=120,
height=60), the constructor defaults when absent. -/
def create_vertex_from_cell (cell : MxCellIn) : ShapeObj :=
  let value := cell.value.getD []
  let style := cell.style.getD []
  let obj := { defaultObject with value := value }
  let obj := if style ≠ [] then { obj with style := style } else obj
  match cell.geometry with
  | none => obj
  | some g =>
    { obj with
      position := (g.x.getD 0, g.y.getD 0),
      width := g.width.getD 120,
      height := g.height.getD 60 }

/-- An imported element: a shape, a connector (label, style, parent index,
source index, target index — indices into the sheet's element list model
the Python object references), or a basic opaque element. -/
inductive DElem : Type
  | shape : ShapeObj → Option Nat → DElem
  | conn : List Char → List Char → Option Nat → Option Nat → Option Nat → DElem
  | basic : Option Nat → DElem
deriving DecidableEq, Repr

/-- Set the parent reference of any element (`obj.parent = parent_obj`). -/
def setParentElem : DElem → Option Nat → DElem
  | .shape o _, p => .shape o p
  | .conn l s _ src tgt, p => .conn l s p src tgt
  | .basic _, p => .basic p

/-- `isinstance(obj, Edge)`. -/
def isConnElem : DElem → Bool
  | .conn _ _ _ _ _ => true
  | _ => false

/-- Set a connector's source (identity on other elements, which the code
never reaches thanks to the `isinstance` guard). -/
def setSourceElem : DElem → Option Nat → DElem
  | .conn l s p _ tgt, src => .conn l s p src tgt
  | e, _ => e

/-- Set a connector's target. -/
def setTargetElem : DElem → Option Nat → DElem
  | .conn l s p src _, tgt => .conn l s p src tgt
  | e, _ => e

/-- In-place update of the element at an index (a Python object mutation
through a reference). -/
def modifyIdx {α : Type} : List α → Nat → (α → α) → List α
  | [], _, _ => []
  | a :: as, 0, f => f a :: as
  | a :: as, n + 1, f => a :: modifyIdx as n f

/-- The per-sheet conversion state: the sheet's elements in creation order
(`obj.page = page` registers the element with the page, modelled from the
spec since the `page` module is not under `src/`), and the
`id_to_object` table mapping cell ids to element indices. -/
structure ConvState where
  objs : List DElem
  table : List (Option (List Char) × Nat)

/-- `XmlToPythonConverter._create_object_from_cell` (first pass),
translated from the source: skip reserved ids; an `edge="1"` cell becomes
a connector, a `vertex="1"` cell a shape, anything else a basic element;
the created element is recorded in `id_to_object`. -/
def create_object_from_cell (st : ConvState) (cell : MxCellIn) : ConvState :=
  if reservedId cell.id then st
  else if cell.edgeAttr = some "1".toList then
    let value := cell.value.getD []
    let style := cell.style.getD []
    let e := DElem.conn value (if style ≠ [] then style else []) none none none
    { objs := st.objs ++ [e], table := pyInsert st.table cell.id st.objs.length }
  else if cell.vertexAttr = some "1".toList then
    { objs := st.objs ++ [.shape (create_vertex_from_cell cell) none],
      table := pyInsert st.table cell.id st.objs.length }
  else
    { objs := st.objs ++ [.basic none],
      table := pyInsert st.table cell.id st.objs.length }

/-- `XmlToPythonConverter._set_relationships` (second pass), translated
from the source: skip reserved ids and ids without a created element;
resolve the parent attribute through the table when truthy and not
reserved; for connectors resolve source and target, leaving the field
unset when the lookup fails. -/
def set_relationships (table : List (Option (List Char) × Nat))
    (objs0 : List DElem) (cell : MxCellIn) : List DElem :=
  if reservedId cell.id then objs0
  else
    match pyLookup table cell.id with
    | none => objs0
    | some idx =>
      let withParent :=
        match cell.parent with
        | some pid =>
          if pid ≠ [] ∧ pid ≠ "0".toList ∧ pid ≠ "1".toList then
            match pyLookup table (some pid) with
            | some pidx => modifyIdx objs0 idx (fun o => setParentElem o (some pidx))
            | none => objs0
          else objs0
        | none => objs0
      if isConnElem (objs0.getD idx (.basic none)) then
        let withSource :=
          match cell.source with
          | some sid =>
            if sid ≠ [] then
              match pyLookup table (some sid) with
              | some sidx => modifyIdx withParent idx (fun o => setSourceElem o (some sidx))
              | none => withParent
            else withParent
          | none => withParent
        match cell.target with
        | some tid =>
          if tid ≠ [] then
            match pyLookup table (some tid) with
            | some tidx => modifyIdx withSource idx (fun o => setTargetElem o (some tidx))
            | none => withSource
          else withSource
        | none => withSource
      else withParent

/-- `XmlToPythonConverter.convert_diagram` on the cell list of a sheet:
two passes over the cells (the `id_to_object` table is rebuilt per sheet),
returning the sheet's elements. -/
def convert_diagram_cells (cells : List MxCellIn) : List DElem :=
  let st := cells.foldl create_object_from_cell { objs := [], table := [] }
  cells.foldl (set_relationships st.table) st.objs

/-- The drawpyo `File` metadata the converter sets. -/
structure DFile where
  host : List Char
  version : List Char
  type : List Char
deriving DecidableEq, Repr

/-- The metadata assignment of `XmlToPythonConverter.convert_file`,
translated from the source: `file_info.get(key, fallback)` on the parsed
`file_info` dict. -/
def convert_file_info (file_info : List (List Char × List Char)) : DFile :=
  { host := pyGetD file_info "host".toList "Drawpyo".toList,
    version := pyGetD file_info "version".toList "21.6.5".toList,
    type := pyGetD file_info "type".toList "device".toList }

/-! ## Writer, export side (`src/drawpyo/writer/__init__.py`)

Model of `DrawioWriter._add_objects_to_root` and its two emission helpers.
Page elements carry a token (modelling Python object identity, the key of
the `obj_to_id` dict); connector source/target are tokens of referenced
objects.  The `mxGeometry` sub-element the writer always appends carries no
identifier/ordering information and is not modelled. -/

/-- What kind of page element an object is: a shape (`isinstance(obj,
Object) and not isinstance(obj, Edge)`), an edge with its source/target
references, or something else (skipped by both emission loops). -/
inductive PKind : Type
  | vertex : PKind
  | edgeK : Option Nat → Option Nat → PKind
  | otherK : PKind
deriving DecidableEq, Repr

/-- A page element as the writer reads it. -/
structure PObj where
  token : Nat
  kind : PKind
  value : List Char
  style : List Char
  parent : Option Nat
deriving DecidableEq, Repr

/-- `isinstance(obj, Object) and not isinstance(obj, Edge)`. -/
def isVertexObj (o : PObj) : Bool :=
  match o.kind with
  | .vertex => true
  | _ => false

/-- `isinstance(obj, Edge)`. -/
def isEdgeObj (o : PObj) : Bool :=
  match o.kind with
  | .edgeK _ _ => true
  | _ => false

/-- The id-assignment loop: `next_id` starts at 2 and increments once per
page object. -/
def objToIdFrom (nextId : Nat) : List PObj → List (Nat × List Char)
  | [] => []
  | o :: os => (o.token, natToChars nextId) :: objToIdFrom (nextId + 1) os

/-- The `obj_to_id` table: ids are assigned to every page object in sheet
order, starting at the string `"2"` and counting up. -/
def objToId (page : List PObj) : List (Nat × List Char) :=
  objToIdFrom 2 page

/-- An emitted `mxCell` element as the writer sets its attributes. -/
structure MxCellOut where
  id : List Char
  parentId : List Char
  vertexFlag : Bool
  edgeFlag : Bool
  value : List Char
  style : Option (List Char)
  source : Option (List Char)
  target : Option (List Char)
deriving DecidableEq, Repr

/-- Parent attribute resolution: `"1"` unless the object has a parent that
is present in `obj_to_id`. -/
def resolveParent (table : List (Nat × List Char)) (p : Option Nat) : List Char :=
  match p with
  | some pt => (pyLookup table pt).getD "1".toList
  | none => "1".toList

/-- `DrawioWriter._add_object_to_root`, translated from the source (the
`obj_to_id[obj]` lookup is total on page members; `getD []` is never
reached there). -/
def add_object_to_root (table : List (Nat × List Char)) (o : PObj) : MxCellOut :=
  { id := (pyLookup table o.token).getD [],
    parentId := resolveParent table o.parent,
    vertexFlag := true,
    edgeFlag := false,
    value := o.value,
    style := if o.style ≠ [] then some o.style else none,
    source := none,
    target := none }

/-- `DrawioWriter._add_edge_to_root`, translated from the source: source
and target attributes are set only when the referenced object is present
in `obj_to_id`. -/
def add_edge_to_root (table : List (Nat × List Char)) (o : PObj) : MxCellOut :=
  { id := (pyLookup table o.token).getD [],
    parentId := resolveParent table o.parent,
    vertexFlag := false,
    edgeFlag := true,
    value := o.value,
    style := if o.style ≠ [] then some o.style else none,
    source :=
      match o.kind with
      | .edgeK (some s) _ => pyLookup table s
      | _ => none,
    target :=
      match o.kind with
      | .edgeK _ (some t) => pyLookup table t
      | _ => none }

/-- `DrawioWriter._add_objects_to_root`, translated from the source: assign
ids to every page object in order, then emit all shapes in page order,
then all edges in page order. -/
def add_objects_to_root (page : List PObj) : List MxCellOut :=
  let table := objToId page
  (page.filter isVertexObj).map (add_object_to_root table)
    ++ (page.filter isEdgeObj).map (add_edge_to_root table)

/-! ## Predicates used in the statements about the style round trip -/

/-- Whether a style value is a float. -/
def StyleValue.isFloat : StyleValue → Bool
  | .float _ _ => true
  | _ => false

/-- The keys of a style dict, in order. -/
def dictKeys (d : StyleDict) : List (List Char) := d.map Prod.fst

/-- A dict carries no float values (Python's `str(float)` falls outside
the digits-dot-digits regime on overflow or scientific notation, where the
round trip genuinely breaks). -/
def noFloats (d : StyleDict) : Bool :=
  d.all fun kv => !kv.2.isFloat

/-- The base-style entry, when present, is a nonempty plain string without
`'='` — the shape produced by a leading bare segment. -/
def baseOk (d : StyleDict) : Bool :=
  match pyLookup d baseStyleKey with
  | none => true
  | some (.str u) => !u.isEmpty && !u.contains '='
  | some _ => false

/-- Structural invariant of the dicts `parse_style` produces: distinct
keys; keys contain neither `';'` nor `'='`; values are never `None`;
string values contain no `';'`, and for non-base keys they are fixed
points of the coercion. -/
def GoodDict (d : StyleDict) : Prop :=
  (dictKeys d).Nodup ∧
    ∀ kv ∈ d, (';' : Char) ∉ kv.1 ∧ ('=' : Char) ∉ kv.1 ∧ kv.2 ≠ .pyNone ∧
      ∀ u, kv.2 = .str u → (';' : Char) ∉ u ∧ (kv.1 ≠ baseStyleKey → coerce_value u = .str u)

/-- A concrete instance of the `Zlib` contract (a trivial stand-in
compressor: a one-byte block marker before the literal bytes), used to
instantiate theorems that are parametric in the codec. -/
def zlibWitness : Zlib where
  deflateBody bs := 0 :: bs
  header := [0, 0]
  checksum _ := [0, 0, 0, 0]
  inflateRaw l :=
    match l with
    | [] => none
    | _ :: t => some t
  header_len := rfl
  checksum_len _ := rfl
  body_bytes := by
    intro bs h b hb
    rcases List.mem_cons.mp hb with rfl | h1
    · omega
    · exact h b h1
  inflate_body _ _ := rfl
  inflate_nil := rfl

/-! ## Helper lemmas -/

theorem digitChar_isDigit : ∀ d, d < 10 → (digitChar d).isDigit = true := by decide

theorem digitChar_toNat : ∀ d, d < 10 → (digitChar d).toNat = 48 + d := by decide

theorem digitsToNat_append_digit (a : List Char) (c : Char) :
    digitsToNat (a ++ [c]) = 10 * digitsToNat a + (c.toNat - 48) := by
  simp [digitsToNat, List.foldl_append, Nat.mul_comm]

theorem natToCharsAux_master : ∀ fuel n, n < fuel →
    natToCharsAux fuel n ≠ [] ∧ (natToCharsAux fuel n).all (·.isDigit) = true ∧
      digitsToNat (natToCharsAux fuel n) = n := by
  intro fuel
  induction fuel with
  | zero => intro n h; omega
  | succ f ih =>
    intro n h
    rw [natToCharsAux]
    by_cases h10 : n < 10
    · rw [if_pos h10]
      exact ⟨by simp, by simp [digitChar_isDigit n h10],
        by simp [digitsToNat, digitChar_toNat n h10]⟩
    · rw [if_neg h10]
      have hrec := ih (n / 10) (by omega)
      refine ⟨by simp, ?_, ?_⟩
      · simp [List.all_append, hrec.2.1, digitChar_isDigit (n % 10) (by omega)]
      · rw [digitsToNat_append_digit, hrec.2.2, digitChar_toNat (n % 10) (by omega)]
        omega

theorem natToChars_ne_nil_all_digit (n : Nat) :
    natToChars n ≠ [] ∧ (natToChars n).all (·.isDigit) = true :=
  ⟨(natToCharsAux_master (n + 1) n (by omega)).1,
   (natToCharsAux_master (n + 1) n (by omega)).2.1⟩

theorem digitsToNat_natToChars (n : Nat) : digitsToNat (natToChars n) = n :=
  (natToCharsAux_master (n + 1) n (by omega)).2.2

theorem pyIsDigit_natToChars (n : Nat) : pyIsDigit (natToChars n) = true := by
  have h := natToChars_ne_nil_all_digit n
  simp [pyIsDigit, h.2, List.isEmpty_iff, h.1]

theorem coerce_value_natToChars (n : Nat) : coerce_value (natToChars n) = .int n := by
  rw [coerce_value, if_pos (pyIsDigit_natToChars n), digitsToNat_natToChars]

theorem coerce_value_true : coerce_value "True".toList = .bool true := by decide

theorem coerce_value_false : coerce_value "False".toList = .bool false := by decide

theorem coerce_value_str_fix {v w : List Char} (h : coerce_value v = .str w) :
    w = v ∧ coerce_value w = .str w := by
  rw [coerce_value] at h
  split at h
  · exact absurd h (by simp)
  · split at h
    · exact absurd h (by simp)
    · split at h
      · exact absurd h (by simp)
      · split at h
        · exact absurd h (by simp)
        · next h1 h2 h3 h4 =>
          obtain rfl : w = v := by injection h with h; exact h.symm
          exact ⟨rfl, by rw [coerce_value, if_neg h1, if_neg h2, if_neg h3, if_neg h4]⟩

theorem pyLookup_pyInsert_self {κ α : Type} [DecidableEq κ] (d : List (κ × α)) (k : κ) (v : α) :
    pyLookup (pyInsert d k v) k = some v := by
  induction d with
  | nil => simp [pyInsert, pyLookup]
  | cons kv rest ih =>
    by_cases h : kv.1 = k
    · simp [pyInsert, pyLookup, h]
    · simp [pyInsert, pyLookup, h, ih]

theorem pyLookup_pyInsert_ne {κ α : Type} [DecidableEq κ] (d : List (κ × α)) {k q : κ} (v : α)
    (h : q ≠ k) : pyLookup (pyInsert d k v) q = pyLookup d q := by
  induction d with
  | nil =>
    simp only [pyInsert, pyLookup]
    rw [if_neg (Ne.symm h)]
  | cons kv rest ih =>
    simp only [pyInsert]
    by_cases h1 : kv.1 = k
    · rw [if_pos h1]
      simp only [pyLookup]
      rw [if_neg (Ne.symm h), if_neg (by rw [h1]; exact Ne.symm h)]
    · rw [if_neg h1]
      simp only [pyLookup]
      by_cases h2 : kv.1 = q
      · rw [if_pos h2, if_pos h2]
      · rw [if_neg h2, if_neg h2, ih]

theorem pyInsert_of_not_mem {κ α : Type} [DecidableEq κ] {d : List (κ × α)} {k : κ} (v : α)
    (h : ∀ e ∈ d, e.1 ≠ k) : pyInsert d k v = d ++ [(k, v)] := by
  induction d with
  | nil => rfl
  | cons kv rest ih =>
    rw [pyInsert, if_neg (h kv (by simp))]
    simp [ih fun e he => h e (by simp [he])]

theorem pyLookup_eq_none {κ α : Type} [DecidableEq κ] {d : List (κ × α)} {k : κ}
    (h : ∀ e ∈ d, e.1 ≠ k) : pyLookup d k = none := by
  induction d with
  | nil => rfl
  | cons kv rest ih =>
    rw [pyLookup, if_neg (h kv (by simp))]
    exact ih fun e he => h e (by simp [he])

theorem pyLookup_append_left {κ α : Type} [DecidableEq κ] {d₁ : List (κ × α)}
    (d₂ : List (κ × α)) {k : κ} {v : α} (h : pyLookup d₁ k = some v) :
    pyLookup (d₁ ++ d₂) k = some v := by
  induction d₁ with
  | nil => simp [pyLookup] at h
  | cons kv rest ih =>
    rw [pyLookup] at h
    by_cases h1 : kv.1 = k
    · simpa [pyLookup, h1] using h
    · rw [if_neg h1] at h
      simpa [pyLookup, h1] using ih h

theorem pyLookup_append_right {κ α : Type} [DecidableEq κ] {d₁ : List (κ × α)}
    (d₂ : List (κ × α)) {k : κ} (h : pyLookup d₁ k = none) :
    pyLookup (d₁ ++ d₂) k = pyLookup d₂ k := by
  induction d₁ with
  | nil => simp
  | cons kv rest ih =>
    rw [pyLookup] at h
    by_cases h1 : kv.1 = k
    · simp [h1] at h
    · rw [if_neg h1] at h
      simpa [pyLookup, h1] using ih h

theorem splitSemi_ne_nil (s : List Char) : splitSemi s ≠ [] := by
  cases s with
  | nil => simp [splitSemi]
  | cons c cs =>
    rw [splitSemi]
    split
    · simp
    · split <;> simp

theorem mem_splitSemi_no_semi (s : List Char) : ∀ p ∈ splitSemi s, (';' : Char) ∉ p := by
  induction s with
  | nil => simp [splitSemi]
  | cons c cs ih =>
    intro p hp
    rw [splitSemi] at hp
    split at hp
    · rcases List.mem_cons.mp hp with rfl | hmem
      · simp
      · exact ih p hmem
    · next hc =>
      split at hp
      · next heq =>
        exact absurd heq (splitSemi_ne_nil cs)
      · next q qs heq =>
        rcases List.mem_cons.mp hp with rfl | hmem
        · intro hin
          rcases List.mem_cons.mp hin with h1 | h1
          · exact hc h1.symm
          · exact ih q (by rw [heq]; simp) h1
        · exact ih p (by rw [heq]; simp [hmem])

theorem splitSemi_no_semi {p : List Char} (h : (';' : Char) ∉ p) : splitSemi p = [p] := by
  induction p with
  | nil => rfl
  | cons c cs ih =>
    rw [splitSemi, if_neg (by intro hh; exact h (by simp [hh]))]
    rw [ih (by intro hh; exact h (by simp [hh]))]

theorem splitSemi_append_semi {p : List Char} (rest : List Char) (h : (';' : Char) ∉ p) :
    splitSemi (p ++ ';' :: rest) = p :: splitSemi rest := by
  induction p with
  | nil => simp [splitSemi]
  | cons c cs ih =>
    rw [List.cons_append, splitSemi, if_neg (by intro hh; exact h (by simp [hh]))]
    rw [ih (by intro hh; exact h (by simp [hh]))]

theorem splitSemi_joinSemi : ∀ ps : List (List Char), ps ≠ [] →
    (∀ p ∈ ps, (';' : Char) ∉ p) → splitSemi (joinSemi ps) = ps
  | [], h, _ => absurd rfl h
  | [p], _, hs => by
    rw [joinSemi, splitSemi_no_semi (hs p (by simp))]
  | p :: q :: ps, _, hs => by
    have hj : joinSemi (p :: q :: ps) = p ++ ';' :: joinSemi (q :: ps) := by
      rw [joinSemi]
      simp
    rw [hj, splitSemi_append_semi _ (hs p (by simp))]
    rw [splitSemi_joinSemi (q :: ps) (by simp) (fun r hr => hs r (by simp [List.mem_cons.mp hr]))]

theorem keyOf_append {k : List Char} (v : List Char) (h : ('=' : Char) ∉ k) :
    keyOf (k ++ '=' :: v) = k := by
  induction k with
  | nil => simp [keyOf]
  | cons c cs ih =>
    rw [List.cons_append, keyOf, if_neg (by intro hh; exact h (by simp [hh]))]
    rw [ih (by intro hh; exact h (by simp [hh]))]

theorem valOf_append {k : List Char} (v : List Char) (h : ('=' : Char) ∉ k) :
    valOf (k ++ '=' :: v) = v := by
  induction k with
  | nil => simp [valOf]
  | cons c cs ih =>
    rw [List.cons_append, valOf, if_neg (by intro hh; exact h (by simp [hh]))]
    rw [ih (by intro hh; exact h (by simp [hh]))]

theorem contains_append_eq {k : List Char} (v : List Char) :
    (k ++ '=' :: v).contains '=' = true := by
  simp

/-- The loop of `parse_style` past index 0 never takes the base-style
branch, so it is a plain fold. -/
theorem styleFold_pos (ps : List (List Char)) :
    ∀ i d, i ≠ 0 → styleFold ps i d =
      ps.foldl
        (fun d q =>
          if q = [] then d
          else if q.contains '=' then pyInsert d (keyOf q) (coerce_value (valOf q))
          else d)
        d := by
  induction ps with
  | nil => intro i d _; rfl
  | cons q qs ih =>
    intro i d hi
    rw [styleFold, List.foldl_cons, ih (i + 1) _ (by omega)]
    congr 1
    rw [styleStep]
    by_cases hq : q = []
    · rw [if_pos hq, if_pos hq]
    · rw [if_neg hq, if_neg hq, if_neg (by simp [hi])]

/-! ## C6 -/

/-- C6 counterexample: on `";rounded"` the first non-empty `'='`-free
segment is `"rounded"`, so the claim demands a base-style entry, but the
code checks only the segment at raw index 0 (which is empty here) and
yields the empty dict. -/
theorem c6_counterexample :
    parse_style ";rounded".toList = [] ∧
      pyLookup (parse_style ";rounded".toList) baseStyleKey = none := by
  constructor <;> rfl

/-- C6 (amended): `parse_style` splits on `';'`, skips empty segments,
maps the segment at index 0 of the split — not the first non-empty
segment — to the base-style pseudo-key when it is non-empty and contains
no `'='`, splits every segment containing `'='` at its first `'='` (values
may contain further `'='`), and silently drops any later segment without
`'='`. -/
theorem c6_amended_segmenting (s : List Char) :
    parse_style s = parse_style_amended_spec s := by
  rw [parse_style, parse_style_amended_spec]
  by_cases hs : s = []
  · rw [if_pos hs, if_pos hs]
  · rw [if_neg hs, if_neg hs]
    obtain ⟨p, ps, hsplit⟩ : ∃ p ps, splitSemi s = p :: ps := by
      cases h : splitSemi s with
      | nil => exact absurd h (splitSemi_ne_nil s)
      | cons p ps => exact ⟨p, ps, rfl⟩
    rw [hsplit, styleFold]
    have hstep : styleStep 0 p [] =
        (if p = [] then []
         else if ¬ p.contains '=' then [(baseStyleKey, .str p)]
         else [(keyOf p, coerce_value (valOf p))]) := by
      rw [styleStep]
      split_ifs <;> simp_all [pyInsert]
    rw [hstep, styleFold_pos ps 1 _ (by omega)]

/-! ## C3 -/

/-- C3: the value coercion tries, in order with the first match winning:
nonempty all-digit string to integer, exactly-one-dot otherwise-digits
string to float, case-insensitive true/false to boolean, else the string
is kept; and the worked example `"shape=rectangle;opacity=50;dashed=true;"`
parses to rectangle / integer 50 / boolean true. -/
theorem c3_value_coercion :
    (∀ value : List Char,
      coerce_value value =
        if value ≠ [] ∧ value.all (·.isDigit) = true then .int (digitsToNat value)
        else if value.count '.' = 1 ∧ removeFirstDot value ≠ [] ∧
            (removeFirstDot value).all (·.isDigit) = true then
          .float (digitsToNat (removeFirstDot value)) (fracLen value)
        else if pyLower value = "true".toList then .bool true
        else if pyLower value = "false".toList then .bool false
        else .str value)
    ∧ parse_style "shape=rectangle;opacity=50;dashed=true;".toList =
        [("shape".toList, .str "rectangle".toList),
         ("opacity".toList, .int 50),
         ("dashed".toList, .bool true)] := by
  constructor
  · intro value
    have h1 : (pyIsDigit value = true) ↔
        (value ≠ [] ∧ value.all (·.isDigit) = true) := by
      simp [pyIsDigit, List.isEmpty_iff]
    have hiff : pyIsDigit (removeFirstDot value) = true ↔
        (removeFirstDot value ≠ [] ∧ (removeFirstDot value).all (·.isDigit) = true) := by
      simp [pyIsDigit, List.isEmpty_iff]
    have h2 : ((pyIsDigit (removeFirstDot value) = true) ∧ value.count '.' = 1) ↔
        (value.count '.' = 1 ∧ removeFirstDot value ≠ [] ∧
          (removeFirstDot value).all (·.isDigit) = true) := by
      constructor
      · rintro ⟨ha, hc⟩
        exact ⟨hc, (hiff.mp ha).1, (hiff.mp ha).2⟩
      · rintro ⟨hc, ha, hb⟩
        exact ⟨hiff.mpr ⟨ha, hb⟩, hc⟩
    rw [coerce_value]
    exact if_congr h1 rfl (if_congr h2 rfl rfl)
  · decide

/-! ## C7 -/

/-- C7 counterexample: a parsed file whose `mxfile` element has no host,
version or type attribute imports with empty-string metadata, not the
claimed `"Drawpyo"`/`"21.6.5"`/`"device"` fallbacks — the parser always
populates those keys (with `''`), so the converter's `dict.get` defaults
are dead. -/
theorem c7_counterexample :
    convert_file_info (parse_file_info
        { tag := "mxfile".toList, host := none, modified := none, agent := none,
          version := none, type := none, diagrams := [] }) =
      { host := [], version := [], type := [] } ∧
    ([] : List Char) ≠ "Drawpyo".toList ∧
    ([] : List Char) ≠ "21.6.5".toList ∧
    ([] : List Char) ≠ "device".toList := by
  refine ⟨rfl, by decide, by decide, by decide⟩

/-- C7 (amended): importing takes host, version and type verbatim from
the parsed metadata, which defaults a missing attribute to the empty
string; the `"Drawpyo"`/`"21.6.5"`/`"device"` fallbacks would fire only on
a `file_info` dict lacking the key, which `parse_file`/`parse_xml_string`
never produce — so a missing or empty attribute yields the empty string. -/
theorem c7_amended_metadata (tag : List Char)
    (host modified agent version type_ : Option (List Char)) (diagrams : List XDiagram) :
    convert_file_info (parse_file_info
        { tag := tag, host := host, modified := modified, agent := agent,
          version := version, type := type_, diagrams := diagrams }) =
      { host := host.getD [], version := version.getD [], type := type_.getD [] } := by
  rfl

/-! ## C5 -/

/-- C5: `is_compressed` returns false whenever the content contains both
`'<'` and `'>'`; otherwise it returns true exactly when Python's
`base64.b64decode` (non-strict) accepts the content. -/
theorem c5_is_compressed (content : List Nat) :
    ((content.contains 60 = true ∧ content.contains 62 = true) →
      DrawioDecompressor.is_compressed content = false) ∧
    (¬ (content.contains 60 = true ∧ content.contains 62 = true) →
      DrawioDecompressor.is_compressed content = (b64decodePy content).isSome) := by
  constructor
  · rintro ⟨h1, h2⟩
    rw [DrawioDecompressor.is_compressed, if_pos (by rw [h1, h2]; rfl)]
  · intro h
    rw [DrawioDecompressor.is_compressed, if_neg]
    intro hb
    rcases Bool.and_eq_true _ _ |>.mp hb with ⟨h1, h2⟩
    exact h ⟨h1, h2⟩

/-- Witness for C5, at the markup string `"<a>"` (both brackets present)
and the base64 text `"abcd"`. -/
theorem c5_is_compressed_witness :
    DrawioDecompressor.is_compressed [60, 97, 62] = false ∧
      DrawioDecompressor.is_compressed [97, 98, 99, 100] =
        (b64decodePy [97, 98, 99, 100]).isSome :=
  ⟨(c5_is_compressed [60, 97, 62]).1 (by decide),
   (c5_is_compressed [97, 98, 99, 100]).2 (by decide)⟩

/-! ## C8 -/

/-- C8 (spec-modelled for the constructor defaults of the missing
`diagram.objects` module): a vertex cell without an `mxGeometry` child
imports at position (0,0) with width 120 and height 60, and a present
geometry element fills missing fields with x=0, y=0, width=120,
height=60. -/
theorem c8_geometry_defaults :
    (∀ cell : MxCellIn, cell.geometry = none →
      (create_vertex_from_cell cell).position = (0, 0) ∧
      (create_vertex_from_cell cell).width = 120 ∧
      (create_vertex_from_cell cell).height = 60) ∧
    (∀ (cell : MxCellIn) (g : MxGeo), cell.geometry = some g →
      (create_vertex_from_cell cell).position = (g.x.getD 0, g.y.getD 0) ∧
      (create_vertex_from_cell cell).width = g.width.getD 120 ∧
      (create_vertex_from_cell cell).height = g.height.getD 60) := by
  constructor
  · intro cell hg
    rw [create_vertex_from_cell]
    by_cases hs : (cell.style.getD []) ≠ [] <;> simp [hg, hs, defaultObject]
  · intro cell g hg
    rw [create_vertex_from_cell]
    by_cases hs : (cell.style.getD []) ≠ [] <;> simp [hg, hs, defaultObject]

/-- Witness for C8: a geometry-free vertex cell and a cell whose geometry
element only carries an x field. -/
theorem c8_geometry_defaults_witness :
    (create_vertex_from_cell
        { id := some ['7'], vertexAttr := some ['1'], edgeAttr := none, value := none,
          style := none, parent := none, source := none, target := none,
          geometry := none }).position = (0, 0) ∧
    (create_vertex_from_cell
        { id := some ['8'], vertexAttr := some ['1'], edgeAttr := none, value := none,
          style := none, parent := none, source := none, target := none,
          geometry := some { x := some 5, y := none, width := none, height := none } }).width
      = 120 :=
  ⟨((c8_geometry_defaults.1 _ rfl).1),
   ((c8_geometry_defaults.2 _ { x := some 5, y := none, width := none, height := none } rfl).2.1)⟩

/-! ## C4, counterexample -/

/-- C4 counterexample: at `"baseStyle=50"` one parse/serialize pass is not
a fixed point — the first parse coerces the value to the integer 50, but
`create_style` emits the base style bare, so the second parse re-reads it
as the uncoerced string `"50"`; in Python `50 == "50"` is false, so the
dicts differ. -/
theorem c4_counterexample :
    pyLookup (parse_style (create_style (parse_style "baseStyle=50".toList))) baseStyleKey =
      some (.str ['5', '0']) ∧
    pyLookup (parse_style "baseStyle=50".toList) baseStyleKey = some (.int 50) ∧
    StyleValue.str ['5', '0'] ≠ StyleValue.int 50 := by
  refine ⟨rfl, rfl, by decide⟩

/-! ## C2 -/

/-- Every key in the id table is the token of a page object. -/
theorem objToIdFrom_keys : ∀ (page : List PObj) (nid : Nat) (e : Nat × List Char),
    e ∈ objToIdFrom nid page → ∃ q ∈ page, e.1 = q.token := by
  intro page
  induction page with
  | nil => intro nid e he; simp [objToIdFrom] at he
  | cons o os ih =>
    intro nid e he
    rw [objToIdFrom] at he
    rcases List.mem_cons.mp he with rfl | hmem
    · exact ⟨o, by simp⟩
    · obtain ⟨q, hq, hqe⟩ := ih (nid + 1) e hmem
      exact ⟨q, by simp [hq], hqe⟩

/-- C2: exporting a page `[Shape A, Connector X, Shape B]` emits cells in
document order A, B, X (shapes block before connectors block, each in page
order), with fresh ids assigned in page-sequence order starting at 2
(A = "2", X = "3", B = "4"); X's source and target attributes carry the new
ids of the elements it references, and, in general, an edge's source
attribute is emitted only when the referenced element is in the page. -/
theorem c2_export_ordering :
    (∀ A X B : PObj, A.kind = .vertex → B.kind = .vertex →
      X.kind = .edgeK (some A.token) (some B.token) →
      A.token ≠ X.token → A.token ≠ B.token → X.token ≠ B.token →
      (add_objects_to_root [A, X, B]).map
          (fun c => (c.id, c.vertexFlag, c.edgeFlag, c.source, c.target)) =
        [(['2'], true, false, none, none),
         (['4'], true, false, none, none),
         (['3'], false, true, some ['2'], some ['4'])])
    ∧ (∀ (page : List PObj) (o : PObj) (s : Nat) (tg : Option Nat),
        o.kind = .edgeK (some s) tg → (∀ q ∈ page, q.token ≠ s) →
        (add_edge_to_root (objToId page) o).source = none) := by
  constructor
  · intro A X B hA hB hX hAX hAB hXB
    have hvA : isVertexObj A = true := by rw [isVertexObj, hA]
    have hvB : isVertexObj B = true := by rw [isVertexObj, hB]
    have hvX : isVertexObj X = false := by rw [isVertexObj, hX]
    have heA : isEdgeObj A = false := by rw [isEdgeObj, hA]
    have heB : isEdgeObj B = false := by rw [isEdgeObj, hB]
    have heX : isEdgeObj X = true := by rw [isEdgeObj, hX]
    have htable : objToId [A, X, B] =
        [(A.token, natToChars 2), (X.token, natToChars 3), (B.token, natToChars 4)] := by
      rw [objToId, objToIdFrom, objToIdFrom, objToIdFrom, objToIdFrom]
    have lA : pyLookup
        [(A.token, natToChars 2), (X.token, natToChars 3), (B.token, natToChars 4)]
        A.token = some (natToChars 2) := by
      rw [pyLookup, if_pos rfl]
    have lX : pyLookup
        [(A.token, natToChars 2), (X.token, natToChars 3), (B.token, natToChars 4)]
        X.token = some (natToChars 3) := by
      rw [pyLookup, if_neg hAX, pyLookup, if_pos rfl]
    have lB : pyLookup
        [(A.token, natToChars 2), (X.token, natToChars 3), (B.token, natToChars 4)]
        B.token = some (natToChars 4) := by
      rw [pyLookup, if_neg hAB, pyLookup, if_neg hXB, pyLookup, if_pos rfl]
    rw [add_objects_to_root, htable]
    simp only [List.filter, hvA, hvB, hvX, heA, heB, heX]
    simp only [List.map_append, List.map_cons, List.map_nil,
      add_object_to_root, add_edge_to_root, hX, lA, lX, lB]
    rfl
  · intro page o s tg hk hnotin
    rw [add_edge_to_root]
    simp only [hk]
    exact pyLookup_eq_none fun e he => by
      obtain ⟨q, hq, hqe⟩ := objToIdFrom_keys page 2 e he
      rw [hqe]
      exact hnotin q hq

/-- Witness for C2: a concrete three-element page and a concrete page with
a dangling edge reference. -/
theorem c2_export_ordering_witness :
    (add_objects_to_root
        [{ token := 0, kind := .vertex, value := ['A'], style := [], parent := none },
         { token := 1, kind := .edgeK (some 0) (some 2), value := [], style := [],
           parent := none },
         { token := 2, kind := .vertex, value := ['B'], style := [], parent := none }]).map
        (fun c => (c.id, c.vertexFlag, c.edgeFlag, c.source, c.target)) =
      [(['2'], true, false, none, none),
       (['4'], true, false, none, none),
       (['3'], false, true, some ['2'], some ['4'])] ∧
    (add_edge_to_root (objToId [])
        { token := 5, kind := .edgeK (some 9) none, value := [], style := [],
          parent := none }).source = none :=
  ⟨c2_export_ordering.1
      { token := 0, kind := .vertex, value := ['A'], style := [], parent := none }
      { token := 1, kind := .edgeK (some 0) (some 2), value := [], style := [],
        parent := none }
      { token := 2, kind := .vertex, value := ['B'], style := [], parent := none }
      rfl rfl rfl (by decide) (by decide) (by decide),
   c2_export_ordering.2 []
      { token := 5, kind := .edgeK (some 9) none, value := [], style := [],
        parent := none }
      9 none rfl (by simp)⟩

/-! ## C9 -/

/-- C9: importing a sheet holding a vertex cell and a connector cell whose
source, target and parent attributes all name ids with no element in the
sheet's lookup table leaves the connector's source, target and parent
unset, and the conversion is a total function (no failure path exists for
dangling references). -/
theorem c9_dangling_reference (v e : MxCellIn) (s t p : List Char)
    (hvedge : v.edgeAttr ≠ some "1".toList)
    (hvvert : v.vertexAttr = some "1".toList)
    (hvres : reservedId v.id = false)
    (hvpar : v.parent = none)
    (heedge : e.edgeAttr = some "1".toList)
    (heres : reservedId e.id = false)
    (hneq : v.id ≠ e.id)
    (hesrc : e.source = some s) (hsne : s ≠ [])
    (hsv : v.id ≠ some s) (hse : e.id ≠ some s)
    (hetgt : e.target = some t) (htne : t ≠ [])
    (htv : v.id ≠ some t) (hte : e.id ≠ some t)
    (hepar : e.parent = some p) (hpne : p ≠ [])
    (hp0 : p ≠ "0".toList) (hp1 : p ≠ "1".toList)
    (hpv : v.id ≠ some p) (hpe : e.id ≠ some p) :
    convert_diagram_cells [v, e] =
      [.shape (create_vertex_from_cell v) none,
       .conn (e.value.getD []) (if e.style.getD [] ≠ [] then e.style.getD [] else [])
         none none none] := by
  set conn1 : DElem :=
    .conn (e.value.getD []) (if e.style.getD [] ≠ [] then e.style.getD [] else [])
      none none none with hconn1
  have h1 : create_object_from_cell { objs := [], table := [] } v =
      { objs := [.shape (create_vertex_from_cell v) none], table := [(v.id, 0)] } := by
    rw [create_object_from_cell, if_neg (by simp [hvres]), if_neg hvedge, if_pos hvvert]
    rfl
  have h2 : create_object_from_cell
      { objs := [.shape (create_vertex_from_cell v) none], table := [(v.id, 0)] } e =
      { objs := [.shape (create_vertex_from_cell v) none, conn1],
        table := [(v.id, 0), (e.id, 1)] } := by
    rw [create_object_from_cell, if_neg (by simp [heres]), if_pos heedge]
    show ({ objs := _ ++ [conn1], table := pyInsert [(v.id, 0)] e.id 1 } : ConvState) = _
    rw [pyInsert, if_neg hneq]
    rfl
  have lkv : pyLookup [(v.id, 0), (e.id, 1)] v.id = some 0 := by
    rw [pyLookup, if_pos rfl]
  have lke : pyLookup [(v.id, 0), (e.id, 1)] e.id = some 1 := by
    rw [pyLookup, if_neg hneq, pyLookup, if_pos rfl]
  have lkp : pyLookup [(v.id, 0), (e.id, 1)] (some p) = none := by
    rw [pyLookup, if_neg hpv, pyLookup, if_neg hpe, pyLookup]
  have lks : pyLookup [(v.id, 0), (e.id, 1)] (some s) = none := by
    rw [pyLookup, if_neg hsv, pyLookup, if_neg hse, pyLookup]
  have lkt : pyLookup [(v.id, 0), (e.id, 1)] (some t) = none := by
    rw [pyLookup, if_neg htv, pyLookup, if_neg hte, pyLookup]
  have h3 : set_relationships [(v.id, 0), (e.id, 1)]
      [.shape (create_vertex_from_cell v) none, conn1] v =
      [.shape (create_vertex_from_cell v) none, conn1] := by
    rw [set_relationships, if_neg (by simp [hvres]), lkv]
    simp only [hvpar, List.getD, List.getElem?_cons_zero, Option.getD_some, isConnElem]
    rw [if_neg (by simp)]
  have h4 : set_relationships [(v.id, 0), (e.id, 1)]
      [.shape (create_vertex_from_cell v) none, conn1] e =
      [.shape (create_vertex_from_cell v) none, conn1] := by
    rw [set_relationships, if_neg (by simp [heres]), lke]
    simp only [hepar, hesrc, hetgt, lkp, lks, lkt, ite_self]
  rw [convert_diagram_cells]
  simp only [List.foldl_cons, List.foldl_nil, h1, h2, h3, h4]

/-- Witness for C9: concrete cells with dangling source `"77"`, target
`"88"` and parent `"99"`. -/
theorem c9_dangling_reference_witness :
    convert_diagram_cells
      [{ id := some ['5'], vertexAttr := some ['1'], edgeAttr := none, value := none,
         style := none, parent := none, source := none, target := none, geometry := none },
       { id := some ['6'], vertexAttr := none, edgeAttr := some ['1'],
         value := some ['x'], style := none, parent := some ['9', '9'],
         source := some ['7', '7'], target := some ['8', '8'], geometry := none }] =
      [.shape (create_vertex_from_cell
          { id := some ['5'], vertexAttr := some ['1'], edgeAttr := none, value := none,
            style := none, parent := none, source := none, target := none,
            geometry := none }) none,
       .conn ['x'] [] none none none] := by
  have h := c9_dangling_reference
    { id := some ['5'], vertexAttr := some ['1'], edgeAttr := none, value := none,
      style := none, parent := none, source := none, target := none, geometry := none }
    { id := some ['6'], vertexAttr := none, edgeAttr := some ['1'],
      value := some ['x'], style := none, parent := some ['9', '9'],
      source := some ['7', '7'], target := some ['8', '8'], geometry := none }
    ['7', '7'] ['8', '8'] ['9', '9']
    (by decide) rfl (by decide) rfl rfl (by decide) (by decide) rfl (by decide)
    (by decide) (by decide) rfl (by decide) (by decide) (by decide) rfl (by decide)
    (by decide) (by decide) (by decide) (by decide)
  simpa using h

/-! ## C10 -/

/-- Stripping an all-whitespace string yields the empty string. -/
theorem pyStripN_all_space {t : List Nat} (h : t.all pySpaceN = true) : pyStripN t = [] := by
  have h1 : t.dropWhile pySpaceN = [] := by
    rw [List.dropWhile_eq_nil_iff]
    intro x hx
    exact List.all_eq_true.mp h x hx
  rw [pyStripN, h1]
  rfl

/-- Sequential fallible processing fails as soon as one element fails. -/
theorem optionMapM_eq_none {α β : Type} (f : α → Option β) :
    ∀ (l : List α) (a : α), a ∈ l → f a = none → optionMapM f l = none := by
  intro l
  induction l with
  | nil => intro a ha; simp at ha
  | cons x xs ih =>
    intro a ha hfa
    rcases List.mem_cons.mp ha with rfl | hmem
    · rw [optionMapM, hfa]
    · rw [optionMapM]
      cases hfx : f x with
      | none => rfl
      | some y => rw [ih a hmem hfa]

/-- Decompressing the empty string fails: base64-decoding `""` gives the
empty byte string, and raw inflate rejects an empty stream. -/
theorem decompress_nil (z : Zlib) : DrawioDecompressor.decompress z [] = none := by
  rw [DrawioDecompressor.decompress]
  show (match z.inflateRaw [] with
        | none => none
        | some decompressed => utf8Decode decompressed) = none
  rw [z.inflate_nil]

/-- C10: a drawio document containing a diagram element whose text is
missing, empty or whitespace-only makes `parse_xml_string` raise (return
`none`) rather than produce an empty sheet: the stripped empty content has
no angle brackets and base64-decodes to empty bytes, so `is_compressed`
classifies it as compressed, and decompressing the empty string fails. -/
theorem c10_empty_diagram_error {XTree : Type} (z : Zlib)
    (xmlFromString : List Nat → Option XTree) (root : XMxfile) (d : XDiagram)
    (hd : d ∈ root.diagrams) (hw : ∀ c, d.text = some c → c.all pySpaceN = true) :
    parse_xml_string z xmlFromString root = none := by
  have hraw : rawContent d.text = [] := by
    cases htext : d.text with
    | none => rfl
    | some t =>
      rw [rawContent]
      by_cases ht : t = []
      · rw [if_pos ht]
      · rw [if_neg ht, pyStripN_all_space (hw t htext)]
  have hcontent : parse_diagram_content z d.text = none := by
    rw [parse_diagram_content, hraw]
    show (if DrawioDecompressor.is_compressed [] = true
          then DrawioDecompressor.decompress z [] else some []) = none
    rw [if_pos (show DrawioDecompressor.is_compressed [] = true from rfl), decompress_nil]
  rw [parse_xml_string]
  by_cases htag : root.tag ≠ "mxfile".toList
  · rw [if_pos htag]
  · rw [if_neg htag]
    have hmap : optionMapM (fun d => do
        let content ← parse_diagram_content z d.text
        let tree ← xmlFromString content
        pure (d.id, d.name, tree)) root.diagrams = none := by
      apply optionMapM_eq_none _ _ d hd
      rw [hcontent]
      rfl
    rw [hmap]

/-- Witness for C10: a one-diagram file whose diagram text is a single
space, with the concrete codec and a trivial inner XML parser. -/
theorem c10_empty_diagram_error_witness :
    parse_xml_string zlibWitness (fun c => some c)
      { tag := "mxfile".toList, host := none, modified := none, agent := none,
        version := none, type := none,
        diagrams := [{ id := [], name := [], text := some [32] }] } = none :=
  c10_empty_diagram_error zlibWitness (fun c => some c) _
    { id := [], name := [], text := some [32] } (by simp)
    (by intro c hc; injection hc with hc; rw [← hc]; rfl)

/-! ## C1: base64 round trip -/

theorem d6_e6 : ∀ v, v < 64 → d6 (e6 v) = some v := by decide

theorem e6_ne_pad : ∀ v, v < 64 → e6 v ≠ 61 := by decide

theorem e6_lt_128 : ∀ v, v < 64 → e6 v < 128 := by decide

theorem b64run_qp0 {c v : Nat} (cs : List Nat) (left pads : Nat)
    (hne : c ≠ 61) (hd : d6 c = some v) :
    b64run (c :: cs) 0 left pads = b64run cs 1 v 0 := by
  rw [b64run, if_neg hne, hd]

theorem b64run_qp1 {c v : Nat} (cs : List Nat) (left pads : Nat)
    (hne : c ≠ 61) (hd : d6 c = some v) :
    b64run (c :: cs) 1 left pads =
      (b64run cs 2 ((left * 64 + v) % 16) 0).map ((left * 64 + v) / 16 :: ·) := by
  rw [b64run, if_neg hne, hd]

theorem b64run_qp2 {c v : Nat} (cs : List Nat) (left pads : Nat)
    (hne : c ≠ 61) (hd : d6 c = some v) :
    b64run (c :: cs) 2 left pads =
      (b64run cs 3 ((left * 64 + v) % 4) 0).map ((left * 64 + v) / 4 :: ·) := by
  rw [b64run, if_neg hne, hd]

theorem b64run_qp3 {c v : Nat} (cs : List Nat) (left pads : Nat)
    (hne : c ≠ 61) (hd : d6 c = some v) :
    b64run (c :: cs) 3 left pads =
      (b64run cs 0 0 0).map ((left * 64 + v) :: ·) := by
  rw [b64run, if_neg hne, hd]

theorem b64run_pad_qp2_first (cs : List Nat) (left : Nat) :
    b64run (61 :: cs) 2 left 0 = b64run cs 2 left 1 := by
  rw [b64run, if_pos rfl, if_pos (by omega), if_neg (by omega)]

theorem b64run_pad_qp2_second (cs : List Nat) (left : Nat) :
    b64run (61 :: cs) 2 left 1 = some [] := by
  rw [b64run, if_pos rfl, if_pos (by omega), if_pos (by omega)]

theorem b64run_pad_qp3 (cs : List Nat) (left : Nat) :
    b64run (61 :: cs) 3 left 0 = some [] := by
  rw [b64run, if_pos rfl, if_pos (by omega), if_pos (by omega)]

/-- Decoding the base64 encoding of a byte string recovers the bytes. -/
theorem b64run_b64encode : ∀ bs : List Nat, (∀ b ∈ bs, b < 256) →
    b64run (b64encode bs) 0 0 0 = some bs
  | [], _ => rfl
  | [b1], h => by
    have hb : b1 < 256 := h b1 (by simp)
    show b64run [e6 (b1 / 4), e6 (b1 % 4 * 16), 61, 61] 0 0 0 = some [b1]
    rw [b64run_qp0 _ _ _ (e6_ne_pad _ (by omega)) (d6_e6 _ (by omega)),
      b64run_qp1 _ _ _ (e6_ne_pad _ (by omega)) (d6_e6 _ (by omega)),
      b64run_pad_qp2_first, b64run_pad_qp2_second]
    have harith : (b1 / 4 * 64 + b1 % 4 * 16) / 16 = b1 := by omega
    rw [Option.map_some', harith]
  | [b1, b2], h => by
    have hb1 : b1 < 256 := h b1 (by simp)
    have hb2 : b2 < 256 := h b2 (by simp)
    show b64run [e6 (b1 / 4), e6 (b1 % 4 * 16 + b2 / 16), e6 (b2 % 16 * 4), 61] 0 0 0 =
      some [b1, b2]
    rw [b64run_qp0 _ _ _ (e6_ne_pad _ (by omega)) (d6_e6 _ (by omega)),
      b64run_qp1 _ _ _ (e6_ne_pad _ (by omega)) (d6_e6 _ (by omega)),
      b64run_qp2 _ _ _ (e6_ne_pad _ (by omega)) (d6_e6 _ (by omega)),
      b64run_pad_qp3]
    have h1 : (b1 / 4 * 64 + (b1 % 4 * 16 + b2 / 16)) / 16 = b1 := by omega
    have h2 : ((b1 / 4 * 64 + (b1 % 4 * 16 + b2 / 16)) % 16 * 64 + b2 % 16 * 4) / 4 = b2 := by
      omega
    rw [Option.map_some', Option.map_some', h1, h2]
  | b1 :: b2 :: b3 :: rest, h => by
    have hb1 : b1 < 256 := h b1 (by simp)
    have hb2 : b2 < 256 := h b2 (by simp)
    have hb3 : b3 < 256 := h b3 (by simp)
    have hrest := b64run_b64encode rest (fun b hb => h b (by simp [hb]))
    show b64run (e6 (b1 / 4) :: e6 (b1 % 4 * 16 + b2 / 16) :: e6 (b2 % 16 * 4 + b3 / 64) ::
      e6 (b3 % 64) :: b64encode rest) 0 0 0 = some (b1 :: b2 :: b3 :: rest)
    rw [b64run_qp0 _ _ _ (e6_ne_pad _ (by omega)) (d6_e6 _ (by omega)),
      b64run_qp1 _ _ _ (e6_ne_pad _ (by omega)) (d6_e6 _ (by omega)),
      b64run_qp2 _ _ _ (e6_ne_pad _ (by omega)) (d6_e6 _ (by omega)),
      b64run_qp3 _ _ _ (e6_ne_pad _ (by omega)) (d6_e6 _ (by omega)),
      hrest]
    have h1 : (b1 / 4 * 64 + (b1 % 4 * 16 + b2 / 16)) / 16 = b1 := by omega
    have h2 : ((b1 / 4 * 64 + (b1 % 4 * 16 + b2 / 16)) % 16 * 64 + (b2 % 16 * 4 + b3 / 64)) / 4
        = b2 := by omega
    have h3 : ((b1 / 4 * 64 + (b1 % 4 * 16 + b2 / 16)) % 16 * 64 + (b2 % 16 * 4 + b3 / 64)) % 4
        * 64 + b3 % 64 = b3 := by omega
    rw [Option.map_some', Option.map_some', Option.map_some', h1, h2, h3]

/-- The base64 encoding of any byte string is ASCII. -/
theorem b64encode_ascii : ∀ bs : List Nat, (∀ b ∈ bs, b < 256) →
    ∀ c ∈ b64encode bs, c < 128
  | [], _, c, hc => by simp [b64encode] at hc
  | [b1], h, c, hc => by
    have hb : b1 < 256 := h b1 (by simp)
    simp only [b64encode, List.mem_cons, List.not_mem_nil, or_false] at hc
    rcases hc with rfl | rfl | rfl | rfl
    · exact e6_lt_128 _ (by omega)
    · exact e6_lt_128 _ (by omega)
    · omega
    · omega
  | [b1, b2], h, c, hc => by
    have hb1 : b1 < 256 := h b1 (by simp)
    have hb2 : b2 < 256 := h b2 (by simp)
    simp only [b64encode, List.mem_cons, List.not_mem_nil, or_false] at hc
    rcases hc with rfl | rfl | rfl | rfl
    · exact e6_lt_128 _ (by omega)
    · exact e6_lt_128 _ (by omega)
    · exact e6_lt_128 _ (by omega)
    · omega
  | b1 :: b2 :: b3 :: rest, h, c, hc => by
    have hb1 : b1 < 256 := h b1 (by simp)
    have hb2 : b2 < 256 := h b2 (by simp)
    have hb3 : b3 < 256 := h b3 (by simp)
    simp only [b64encode, List.mem_cons] at hc
    rcases hc with rfl | rfl | rfl | rfl | hmem
    · exact e6_lt_128 _ (by omega)
    · exact e6_lt_128 _ (by omega)
    · exact e6_lt_128 _ (by omega)
    · exact e6_lt_128 _ (by omega)
    · exact b64encode_ascii rest (fun b hb => h b (by simp [hb])) c hmem

/-- `base64.b64decode` inverts `base64.b64encode` on byte strings. -/
theorem b64decodePy_b64encode (bs : List Nat) (h : ∀ b ∈ bs, b < 256) :
    b64decodePy (b64encode bs) = some bs := by
  rw [b64decodePy,
    if_pos (List.all_eq_true.mpr fun c hc => by
      simpa using Nat.lt_of_lt_of_le (b64encode_ascii bs h c hc) (by omega)),
    b64run_b64encode bs h]

/-! ## C1: UTF-8 round trip -/

/-- UTF-8 encoding of an in-range scalar produces bytes. -/
theorem utf8EncodeChar_lt_256 (c : Nat) (h : c < 1114112) :
    ∀ b ∈ utf8EncodeChar c, b < 256 := by
  rw [utf8EncodeChar]
  split_ifs with h1 h2 h3 <;> intro b hb <;>
    simp only [List.mem_cons, List.not_mem_nil, or_false] at hb
  · omega
  · rcases hb with rfl | rfl <;> omega
  · rcases hb with rfl | rfl | rfl <;> omega
  · rcases hb with rfl | rfl | rfl | rfl <;> omega

/-- UTF-8 encoding of a valid text produces bytes. -/
theorem utf8Encode_lt_256 : ∀ text : List Nat, (∀ c ∈ text, c < 1114112) →
    ∀ b ∈ utf8Encode text, b < 256
  | [], _, b, hb => by simp [utf8Encode] at hb
  | c :: cs, h, b, hb => by
    rw [utf8Encode] at hb
    rcases List.mem_append.mp hb with hmem | hmem
    · exact utf8EncodeChar_lt_256 c (h c (by simp)) b hmem
    · exact utf8Encode_lt_256 cs (fun x hx => h x (by simp [hx])) b hmem

/-- Strict UTF-8 decoding undoes the encoding of one valid scalar at the
head of a byte stream (with one unit of fuel for the decoded scalar). -/
theorem utf8DecodeAux_encodeChar (c : Nat) (hc : c < 1114112)
    (hs : ¬ (55296 ≤ c ∧ c ≤ 57343)) (rest : List Nat) (f : Nat) :
    utf8DecodeAux (f + 1) (utf8EncodeChar c ++ rest) =
      (utf8DecodeAux f rest).map (c :: ·) := by
  rw [utf8EncodeChar]
  by_cases h1 : c < 128
  · rw [if_pos h1]
    show utf8DecodeAux (f + 1) (c :: rest) = _
    rw [utf8DecodeAux, if_pos h1]
  · rw [if_neg h1]
    by_cases h2 : c < 2048
    · rw [if_pos h2]
      show utf8DecodeAux (f + 1) ((192 + c / 64) :: (128 + c % 64) :: rest) = _
      rw [utf8DecodeAux, if_neg (by omega), if_neg (by omega), if_pos (by omega),
        utf8Tail2, if_pos ⟨by omega, by omega⟩,
        show (192 + c / 64 - 192) * 64 + (128 + c % 64 - 128) = c by omega]
    · rw [if_neg h2]
      by_cases h3 : c < 65536
      · rw [if_pos h3]
        show utf8DecodeAux (f + 1)
          ((224 + c / 4096) :: (128 + c / 64 % 64) :: (128 + c % 64) :: rest) = _
        rw [utf8DecodeAux, if_neg (by omega), if_neg (by omega), if_neg (by omega),
          if_pos (by omega), utf8Tail3,
          if_pos ⟨by omega, by omega, by omega, by omega, by omega, by omega⟩,
          show (224 + c / 4096 - 224) * 4096 + (128 + c / 64 % 64 - 128) * 64 +
            (128 + c % 64 - 128) = c by omega]
      · rw [if_neg h3]
        show utf8DecodeAux (f + 1) ((240 + c / 262144) :: (128 + c / 4096 % 64) ::
          (128 + c / 64 % 64) :: (128 + c % 64) :: rest) = _
        rw [utf8DecodeAux, if_neg (by omega), if_neg (by omega), if_neg (by omega),
          if_neg (by omega), if_pos (by omega), utf8Tail4,
          if_pos ⟨by omega, by omega, by omega, by omega, by omega, by omega, by omega,
            by omega⟩,
          show (240 + c / 262144 - 240) * 262144 + (128 + c / 4096 % 64 - 128) * 4096 +
            (128 + c / 64 % 64 - 128) * 64 + (128 + c % 64 - 128) = c by omega]

/-- Fuel-generic round trip: decoding the encoding of valid text succeeds
whenever the fuel covers the character count. -/
theorem utf8DecodeAux_encode : ∀ (text : List Nat) (f : Nat), (∀ c ∈ text, ValidScalar c) →
    text.length ≤ f → utf8DecodeAux f (utf8Encode text) = some text
  | [], f, _, _ => by rw [utf8Encode]; cases f <;> rfl
  | c :: cs, f, h, hlen => by
    obtain ⟨g, rfl⟩ : ∃ g, f = g + 1 := ⟨f - 1, by simp at hlen; omega⟩
    rw [utf8Encode, utf8DecodeAux_encodeChar c (h c (by simp)).1 (h c (by simp)).2 _ g,
      utf8DecodeAux_encode cs g (fun x hx => h x (by simp [hx])) (by simp at hlen; omega)]
    rfl

/-- Every character encodes to at least one byte. -/
theorem utf8Encode_length : ∀ text : List Nat, text.length ≤ (utf8Encode text).length
  | [] => by simp [utf8Encode]
  | c :: cs => by
    rw [utf8Encode, List.length_append, List.length_cons]
    have h1 : 1 ≤ (utf8EncodeChar c).length := by
      rw [utf8EncodeChar]
      split_ifs <;> simp
    have h2 := utf8Encode_length cs
    omega

/-- Strict UTF-8 decoding inverts UTF-8 encoding on valid text. -/
theorem utf8Decode_utf8Encode (text : List Nat) (h : ∀ c ∈ text, ValidScalar c) :
    utf8Decode (utf8Encode text) = some text := by
  rw [utf8Decode]
  exact utf8DecodeAux_encode text (utf8Encode text).length h (utf8Encode_length text)

/-! ## C1: assembling the codec round trip -/

/-- The `[2:-4]` slice undoes the zlib header and checksum framing. -/
theorem pySlice2Neg4_compress (z : Zlib) (bs : List Nat) :
    pySlice2Neg4 (z.compress bs) = z.deflateBody bs := by
  rw [Zlib.compress, pySlice2Neg4]
  have h2 : z.header.length = 2 := z.header_len
  have h4 : (z.checksum bs).length = 4 := z.checksum_len bs
  have hdrop : (z.header ++ z.deflateBody bs ++ z.checksum bs).drop 2 =
      z.deflateBody bs ++ z.checksum bs := by
    rw [List.append_assoc, ← h2, List.drop_left]
  have hlen : (z.header ++ z.deflateBody bs ++ z.checksum bs).length - 6 =
      (z.deflateBody bs).length := by
    rw [List.length_append, List.length_append, h2, h4]
    omega
  rw [hdrop, hlen, List.take_left]

/-- C1: decompressing the compression of any UTF-8-encodable text returns
the text exactly — compress is UTF-8 encode, raw deflate (zlib with the
2-byte header and 4-byte checksum sliced off) and base64 encode; decompress
is base64 decode, raw inflate and UTF-8 decode. -/
theorem c1_compress_roundtrip (z : Zlib) (text : List Nat)
    (hvalid : ∀ c ∈ text, ValidScalar c) :
    DrawioDecompressor.decompress z (DrawioDecompressor.compress z text) = some text := by
  have hbytes : ∀ b ∈ utf8Encode text, b < 256 :=
    utf8Encode_lt_256 text fun c hc => (hvalid c hc).1
  rw [DrawioDecompressor.compress, pySlice2Neg4_compress, DrawioDecompressor.decompress]
  simp only [b64decodePy_b64encode (z.deflateBody (utf8Encode text)) (z.body_bytes _ hbytes),
    z.inflate_body _ hbytes]
  exact utf8Decode_utf8Encode text hvalid

/-- Witness for C1: the text "hié" (code points 104, 105, 233) with the
concrete codec instance. -/
theorem c1_compress_roundtrip_witness :
    DrawioDecompressor.decompress zlibWitness
      (DrawioDecompressor.compress zlibWitness [104, 105, 233]) = some [104, 105, 233] :=
  c1_compress_roundtrip zlibWitness [104, 105, 233] (by decide)

/-! ## C4, amended: supporting lemmas about dicts and rendering -/

theorem mem_pyInsert {κ α : Type} [DecidableEq κ] {d : List (κ × α)} {k : κ} {v : α}
    {kv : κ × α} (h : kv ∈ pyInsert d k v) : kv ∈ d ∨ kv = (k, v) := by
  induction d with
  | nil =>
    rw [pyInsert] at h
    right
    simpa using h
  | cons e rest ih =>
    rw [pyInsert] at h
    by_cases h1 : e.1 = k
    · rw [if_pos h1] at h
      rcases List.mem_cons.mp h with rfl | hmem
      · right; rfl
      · left; simp [hmem]
    · rw [if_neg h1] at h
      rcases List.mem_cons.mp h with rfl | hmem
      · left; simp
      · rcases ih hmem with h2 | h2
        · left; simp [h2]
        · right; exact h2

theorem nodup_keys_pyInsert {κ α : Type} [DecidableEq κ] {d : List (κ × α)} (k : κ) (v : α)
    (h : (d.map Prod.fst).Nodup) : ((pyInsert d k v).map Prod.fst).Nodup := by
  induction d with
  | nil => simp [pyInsert]
  | cons e rest ih =>
    rw [pyInsert]
    by_cases h1 : e.1 = k
    · rw [if_pos h1]
      simpa [← h1] using h
    · rw [if_neg h1]
      rw [List.map_cons, List.nodup_cons] at h ⊢
      refine ⟨?_, ih h.2⟩
      intro hmem
      obtain ⟨kv, hkv, hfst⟩ := List.mem_map.mp hmem
      rcases mem_pyInsert hkv with h2 | h2
      · exact h.1 (List.mem_map.mpr ⟨kv, h2, hfst⟩)
      · rw [h2] at hfst
        exact h1 hfst.symm

theorem pyLookup_mem {κ α : Type} [DecidableEq κ] {d : List (κ × α)} {k : κ} {v : α}
    (h : pyLookup d k = some v) : (k, v) ∈ d := by
  induction d with
  | nil => simp [pyLookup] at h
  | cons e rest ih =>
    rw [pyLookup] at h
    by_cases h1 : e.1 = k
    · rw [if_pos h1] at h
      have he : e = (k, v) := by
        injection h with h2
        calc e = (e.1, e.2) := rfl
          _ = (k, v) := by rw [h1, h2]
      rw [← he]
      exact List.mem_cons_self e rest
    · rw [if_neg h1] at h
      exact List.mem_cons.mpr (Or.inr (ih h))

theorem pyLookup_none_keys {κ α : Type} [DecidableEq κ] {d : List (κ × α)} {k : κ}
    (h : pyLookup d k = none) : ∀ kv ∈ d, kv.1 ≠ k := by
  induction d with
  | nil => simp
  | cons e rest ih =>
    rw [pyLookup] at h
    intro kv hkv
    by_cases h1 : e.1 = k
    · rw [if_pos h1] at h
      exact absurd h (by simp)
    · rw [if_neg h1] at h
      rcases List.mem_cons.mp hkv with rfl | hmem
      · exact h1
      · exact ih h kv hmem

theorem keyOf_no_eq : ∀ p : List Char, ('=' : Char) ∉ keyOf p := by
  intro p
  induction p with
  | nil => simp [keyOf]
  | cons c cs ih =>
    rw [keyOf]
    by_cases hc : c = '='
    · rw [if_pos hc]; simp
    · rw [if_neg hc]
      intro hmem
      rcases List.mem_cons.mp hmem with h1 | h1
      · exact hc h1.symm
      · exact ih h1

theorem keyOf_subset : ∀ p : List Char, ∀ c ∈ keyOf p, c ∈ p := by
  intro p
  induction p with
  | nil => simp [keyOf]
  | cons x xs ih =>
    rw [keyOf]
    by_cases hx : x = '='
    · rw [if_pos hx]; simp
    · rw [if_neg hx]
      intro c hc
      rcases List.mem_cons.mp hc with rfl | h1
      · simp
      · simp [ih c h1]

theorem valOf_subset : ∀ p : List Char, ∀ c ∈ valOf p, c ∈ p := by
  intro p
  induction p with
  | nil => simp [valOf]
  | cons x xs ih =>
    rw [valOf]
    by_cases hx : x = '='
    · rw [if_pos hx]
      intro c hc
      simp [hc]
    · rw [if_neg hx]
      intro c hc
      simp [ih c hc]

theorem coerce_ne_pyNone (u : List Char) : coerce_value u ≠ .pyNone := by
  rw [coerce_value]
  split_ifs <;> simp

theorem no_semi_of_digits {l : List Char} (h : l.all (·.isDigit) = true) :
    (';' : Char) ∉ l := by
  intro hmem
  have := List.all_eq_true.mp h _ hmem
  simp at this

/-- Rendering a non-float, non-`None` value whose string form is
`';'`-free yields a `';'`-free string. -/
theorem renderValue_no_semi {v : StyleValue}
    (hstr : ∀ u, v = .str u → (';' : Char) ∉ u)
    (hfl : v.isFloat = false) (hnn : v ≠ .pyNone) :
    (';' : Char) ∉ renderValue v := by
  cases v with
  | str u => exact hstr u rfl
  | int n => exact no_semi_of_digits (natToChars_ne_nil_all_digit n).2
  | float m s => simp [StyleValue.isFloat] at hfl
  | bool b => cases b <;> decide
  | pyNone => exact absurd rfl hnn

/-- Re-coercion of the rendered form of a coerced non-base value is the
identity. -/
theorem coerce_renderValue {v : StyleValue}
    (hstr : ∀ u, v = .str u → coerce_value u = .str u)
    (hfl : v.isFloat = false) (hnn : v ≠ .pyNone) :
    coerce_value (renderValue v) = v := by
  cases v with
  | str u => exact hstr u rfl
  | int n => exact coerce_value_natToChars n
  | float m s => simp [StyleValue.isFloat] at hfl
  | bool b =>
    cases b
    · exact coerce_value_false
    · exact coerce_value_true
  | pyNone => exact absurd rfl hnn

/-! ## C4, amended: the invariant of parsed dicts -/

theorem goodDict_pyInsert {d : StyleDict} {k : List Char} {v : StyleValue}
    (hd : GoodDict d)
    (hk1 : (';' : Char) ∉ k) (hk2 : ('=' : Char) ∉ k) (hv1 : v ≠ .pyNone)
    (hv2 : ∀ u, v = .str u →
      (';' : Char) ∉ u ∧ (k ≠ baseStyleKey → coerce_value u = .str u)) :
    GoodDict (pyInsert d k v) := by
  obtain ⟨hnd, hent⟩ := hd
  refine ⟨nodup_keys_pyInsert k v hnd, ?_⟩
  intro kv hkv
  rcases mem_pyInsert hkv with h1 | h1
  · exact hent kv h1
  · rw [h1]
    exact ⟨hk1, hk2, hv1, hv2⟩

theorem goodDict_styleFold : ∀ (parts : List (List Char)) (i : Nat) (d : StyleDict),
    (∀ p ∈ parts, (';' : Char) ∉ p) → GoodDict d → GoodDict (styleFold parts i d) := by
  intro parts
  induction parts with
  | nil => intro i d _ hd; exact hd
  | cons p ps ih =>
    intro i d hp hd
    rw [styleFold]
    apply ih _ _ (fun q hq => hp q (by simp [hq]))
    rw [styleStep]
    split_ifs with h1 h2 h3
    · exact hd
    · refine goodDict_pyInsert hd (by decide) (by decide) (by simp) ?_
      intro u hu
      injection hu with hu
      subst hu
      exact ⟨hp p (by simp), fun hne => absurd rfl hne⟩
    · refine goodDict_pyInsert hd ?_ (keyOf_no_eq p) (coerce_ne_pyNone _) ?_
      · intro hmem
        exact hp p (by simp) (keyOf_subset p _ hmem)
      · intro u hu
        obtain ⟨rfl, hfix⟩ := coerce_value_str_fix hu
        exact ⟨fun hmem => hp p (by simp) (valOf_subset p _ hmem), fun _ => hfix⟩
    · exact hd

theorem goodDict_parse_style (s : List Char) : GoodDict (parse_style s) := by
  rw [parse_style]
  by_cases hs : s = []
  · rw [if_pos hs]
    exact ⟨List.nodup_nil, by simp⟩
  · rw [if_neg hs]
    exact goodDict_styleFold _ 0 [] (mem_splitSemi_no_semi s) ⟨List.nodup_nil, by simp⟩

/-! ## C4, amended: re-parsing the rendered parts -/

theorem styleFold_kv_parts : ∀ (ents : StyleDict) (i : Nat) (d0 : StyleDict),
    (∀ kv ∈ ents, ('=' : Char) ∉ kv.1 ∧ coerce_value (renderValue kv.2) = kv.2) →
    styleFold (ents.map fun kv => kv.1 ++ '=' :: renderValue kv.2) i d0 =
      ents.foldl (fun d kv => pyInsert d kv.1 kv.2) d0 := by
  intro ents
  induction ents with
  | nil => intro i d0 _; rfl
  | cons kv rest ih =>
    intro i d0 h
    rw [List.map_cons, styleFold, List.foldl_cons]
    have hstep : styleStep i (kv.1 ++ '=' :: renderValue kv.2) d0 = pyInsert d0 kv.1 kv.2 := by
      rw [styleStep, if_neg (by simp),
        if_neg (fun hc => hc.2 (contains_append_eq _)),
        if_pos (contains_append_eq _),
        keyOf_append _ (h kv (by simp)).1, valOf_append _ (h kv (by simp)).1,
        (h kv (by simp)).2]
    rw [hstep]
    exact ih _ _ (fun e he => h e (by simp [he]))

theorem foldl_pyInsert_append : ∀ (ents d0 : StyleDict),
    (dictKeys ents).Nodup →
    (∀ kv ∈ ents, ∀ e0 ∈ d0, e0.1 ≠ kv.1) →
    ents.foldl (fun d kv => pyInsert d kv.1 kv.2) d0 = d0 ++ ents := by
  intro ents
  induction ents with
  | nil => intro d0 _ _; simp
  | cons kv rest ih =>
    intro d0 hnd hdisj
    have hnd' : (kv.1 :: dictKeys rest).Nodup := hnd
    have hdisj' : ∀ e ∈ rest, ∀ e0 ∈ d0 ++ [(kv.1, kv.2)], e0.1 ≠ e.1 := by
      intro e he e0 he0
      rcases List.mem_append.mp he0 with h0 | h0
      · exact hdisj e (by simp [he]) e0 h0
      · have h0' : e0 = (kv.1, kv.2) := by simpa using h0
        rw [h0']
        intro heq
        exact (List.nodup_cons.mp hnd').1
          (by rw [heq]; exact List.mem_map.mpr ⟨e, he, rfl⟩)
    rw [List.foldl_cons, pyInsert_of_not_mem _ (fun e he => hdisj kv (by simp) e he),
      ih (d0 ++ [(kv.1, kv.2)]) (List.nodup_cons.mp hnd').2 hdisj']
    simp

theorem pyLookup_filter_ne {d : StyleDict} {q : List Char} (hq : q ≠ baseStyleKey) :
    pyLookup (d.filter fun kv => decide (kv.1 ≠ baseStyleKey)) q = pyLookup d q := by
  induction d with
  | nil => rfl
  | cons e rest ih =>
    rw [List.filter_cons]
    by_cases h1 : e.1 = q
    · rw [if_pos (by simp [h1, hq]), pyLookup, if_pos h1, pyLookup, if_pos h1]
    · by_cases h2 : e.1 = baseStyleKey
      · rw [if_neg (by simp [h2]), pyLookup, if_neg h1, ih]
      · rw [if_pos (by simp [h2])]
        rw [pyLookup, if_neg h1, pyLookup, if_neg h1, ih]

theorem kvParts_filterMap (d : StyleDict) (hnn : ∀ kv ∈ d, kv.2 ≠ StyleValue.pyNone) :
    (d.filterMap fun kv =>
      if kv.1 ≠ baseStyleKey ∧ kv.2 ≠ StyleValue.pyNone then
        some (kv.1 ++ '=' :: renderValue kv.2)
      else none) =
    (d.filter fun kv => decide (kv.1 ≠ baseStyleKey)).map
      (fun kv => kv.1 ++ '=' :: renderValue kv.2) := by
  induction d with
  | nil => rfl
  | cons e rest ih =>
    rw [List.filterMap_cons, List.filter_cons]
    by_cases hb : e.1 = baseStyleKey
    · rw [if_neg (by simp [hb]), if_neg (by simp [hb])]
      exact ih (fun kv hkv => hnn kv (by simp [hkv]))
    · rw [if_pos ⟨hb, hnn e (by simp)⟩, if_pos (by simp [hb]), List.map_cons,
        ih (fun kv hkv => hnn kv (by simp [hkv]))]

theorem joinSemi_cons_eq_nil {p : List Char} {ps : List (List Char)}
    (h : joinSemi (p :: ps) = []) : p = [] ∧ ps = [] := by
  cases ps with
  | nil => exact ⟨h, rfl⟩
  | cons q qs =>
    rw [joinSemi] at h
    · exact absurd (List.append_eq_nil.mp h).2 (by simp)
    · simp

/-- Main lemma for the amended C4: on any dict satisfying the parse
invariant, with no float values and a well-shaped base entry, one
serialize/parse pass is the identity up to Python dict equality. -/
theorem goodDict_roundtrip (d : StyleDict) (hgood : GoodDict d)
    (hfl : noFloats d = true) (hbase : baseOk d = true) :
    dictEquiv (parse_style (create_style d)) d := by
  by_cases hd : d = []
  · subst hd
    intro q
    rfl
  obtain ⟨hnd, hent⟩ := hgood
  have hnn : ∀ kv ∈ d, kv.2 ≠ StyleValue.pyNone := fun kv hkv => (hent kv hkv).2.2.1
  have hflv : ∀ kv ∈ d, kv.2.isFloat = false := by
    intro kv hkv
    have h1 := List.all_eq_true.mp hfl kv hkv
    simpa using h1
  have hents_nodup : (dictKeys (d.filter fun kv => decide (kv.1 ≠ baseStyleKey))).Nodup :=
    List.Nodup.sublist (List.Sublist.map Prod.fst (List.filter_sublist d)) hnd
  have hcoerce : ∀ kv ∈ (d.filter fun kv => decide (kv.1 ≠ baseStyleKey)),
      ('=' : Char) ∉ kv.1 ∧ coerce_value (renderValue kv.2) = kv.2 := by
    intro kv hkv
    obtain ⟨hind, hnb⟩ := List.mem_filter.mp hkv
    have hnb' : kv.1 ≠ baseStyleKey := by simpa using hnb
    have he := hent kv hind
    exact ⟨he.2.1,
      coerce_renderValue (fun u hu => (he.2.2.2 u hu).2 hnb') (hflv kv hind) he.2.2.1⟩
  have hkv_semi : ∀ p ∈ (d.filter fun kv => decide (kv.1 ≠ baseStyleKey)).map
      (fun kv => kv.1 ++ '=' :: renderValue kv.2), (';' : Char) ∉ p := by
    intro p hp
    obtain ⟨kv, hkv, rfl⟩ := List.mem_map.mp hp
    obtain ⟨hind, -⟩ := List.mem_filter.mp hkv
    have he := hent kv hind
    intro hmem
    rcases List.mem_append.mp hmem with h1 | h1
    · exact he.1 h1
    · rcases List.mem_cons.mp h1 with h2 | h2
      · exact absurd h2 (by decide)
      · exact renderValue_no_semi (fun u hu => (he.2.2.2 u hu).1) (hflv kv hind)
          he.2.2.1 h2
  have hdisjbase : ∀ kv ∈ (d.filter fun kv => decide (kv.1 ≠ baseStyleKey)),
      kv.1 ≠ baseStyleKey := by
    intro kv hkv
    simpa using (List.mem_filter.mp hkv).2
  cases hlk : pyLookup d baseStyleKey with
  | some v =>
    rw [baseOk, hlk] at hbase
    cases v with
    | int n => simp at hbase
    | float m sc => simp at hbase
    | bool b => simp at hbase
    | pyNone => simp at hbase
    | str bs =>
      have hbs1 : bs ≠ [] := by
        rcases (Bool.and_eq_true _ _).mp hbase with ⟨ha, -⟩
        simpa [List.isEmpty_iff] using ha
      have hbs2 : ('=' : Char) ∉ bs := by
        rcases (Bool.and_eq_true _ _).mp hbase with ⟨-, hb⟩
        simpa using hb
      have hbsmem : (baseStyleKey, StyleValue.str bs) ∈ d := pyLookup_mem hlk
      have hbs_semi : (';' : Char) ∉ bs := ((hent _ hbsmem).2.2.2 bs rfl).1
      have hcreate : create_style d =
          joinSemi (bs :: (d.filter fun kv => decide (kv.1 ≠ baseStyleKey)).map
            (fun kv => kv.1 ++ '=' :: renderValue kv.2)) := by
        rw [create_style, if_neg hd]
        simp only [hlk]
        rw [kvParts_filterMap d hnn]
        rfl
      rw [hcreate]
      have hjoin_ne : joinSemi (bs :: (d.filter fun kv =>
          decide (kv.1 ≠ baseStyleKey)).map
            (fun kv => kv.1 ++ '=' :: renderValue kv.2)) ≠ [] := by
        intro hj
        exact hbs1 (joinSemi_cons_eq_nil hj).1
      have hsemi_all : ∀ p ∈ bs :: (d.filter fun kv =>
          decide (kv.1 ≠ baseStyleKey)).map
            (fun kv => kv.1 ++ '=' :: renderValue kv.2), (';' : Char) ∉ p := by
        intro p hp
        rcases List.mem_cons.mp hp with rfl | h1
        · exact hbs_semi
        · exact hkv_semi p h1
      rw [parse_style, if_neg hjoin_ne, splitSemi_joinSemi _ (by simp) hsemi_all,
        styleFold]
      have hstep : styleStep 0 bs [] = [(baseStyleKey, .str bs)] := by
        rw [styleStep, if_neg hbs1, if_pos ⟨rfl, by simpa using hbs2⟩]
        rfl
      have hdisj0 : ∀ kv ∈ (d.filter fun kv => decide (kv.1 ≠ baseStyleKey)),
          ∀ e0 ∈ [(baseStyleKey, StyleValue.str bs)], e0.1 ≠ kv.1 := by
        intro kv hkv e0 he0
        have he0' : e0 = (baseStyleKey, StyleValue.str bs) := by simpa using he0
        rw [he0']
        exact fun heq => (hdisjbase kv hkv) heq.symm
      rw [hstep, styleFold_kv_parts _ _ _ hcoerce,
        foldl_pyInsert_append _ _ hents_nodup hdisj0]
      intro q
      by_cases hq : q = baseStyleKey
      · subst hq
        rw [List.singleton_append, pyLookup, if_pos rfl, hlk]
      · rw [List.singleton_append, pyLookup, if_neg (fun h => hq h.symm),
          pyLookup_filter_ne hq]
  | none =>
    have hcreate : create_style d =
        joinSemi ((d.filter fun kv => decide (kv.1 ≠ baseStyleKey)).map
          (fun kv => kv.1 ++ '=' :: renderValue kv.2)) := by
      rw [create_style, if_neg hd]
      simp only [hlk, kvParts_filterMap d hnn]
      rfl
    have hallne : ∀ kv ∈ d, kv.1 ≠ baseStyleKey := pyLookup_none_keys hlk
    have hfilter : (d.filter fun kv => decide (kv.1 ≠ baseStyleKey)) = d :=
      List.filter_eq_self.mpr fun kv hkv => by simpa using hallne kv hkv
    have hpne : (d.filter fun kv => decide (kv.1 ≠ baseStyleKey)).map
        (fun kv => kv.1 ++ '=' :: renderValue kv.2) ≠ [] := by
      rw [hfilter]
      simp [hd]
    have hjoin_ne : joinSemi ((d.filter fun kv => decide (kv.1 ≠ baseStyleKey)).map
        (fun kv => kv.1 ++ '=' :: renderValue kv.2)) ≠ [] := by
      cases hm : (d.filter fun kv => decide (kv.1 ≠ baseStyleKey)).map
          (fun kv => kv.1 ++ '=' :: renderValue kv.2) with
      | nil => exact absurd hm hpne
      | cons p0 ps0 =>
        intro hj
        obtain ⟨hp0, -⟩ := joinSemi_cons_eq_nil hj
        have hmem : p0 ∈ (d.filter fun kv => decide (kv.1 ≠ baseStyleKey)).map
            (fun kv => kv.1 ++ '=' :: renderValue kv.2) := by
          rw [hm]
          simp
        obtain ⟨kv, -, hkv⟩ := List.mem_map.mp hmem
        rw [← hkv] at hp0
        simp at hp0
    rw [hcreate, parse_style, if_neg hjoin_ne, splitSemi_joinSemi _ hpne hkv_semi,
      styleFold_kv_parts _ _ _ hcoerce,
      foldl_pyInsert_append _ _ hents_nodup (by simp)]
    intro q
    rw [List.nil_append]
    by_cases hq : q = baseStyleKey
    · subst hq
      rw [hlk]
      exact pyLookup_eq_none fun e he => hdisjbase e he
    · rw [pyLookup_filter_ne hq]

/-- C4 (amended): one parse/serialize pass is a fixed point up to Python
dict equality for every style string whose parsed mapping contains no
float value and whose base-style entry, if present, is a nonempty plain
string without `'='` — the shape a leading bare segment produces.  The
restriction is forced: `create_style` emits the base style bare, so a
coerced `baseStyle` value (e.g. from `"baseStyle=50"`) re-parses as an
uncoerced string, and Python's `str(float)` leaves the digits-dot-digits
form (scientific notation, infinities) for extreme floats, which re-parse
as plain strings. -/
theorem c4_amended_fixed_point (s : List Char)
    (hfl : noFloats (parse_style s) = true)
    (hbase : baseOk (parse_style s) = true) :
    dictEquiv (parse_style (create_style (parse_style s))) (parse_style s) :=
  goodDict_roundtrip (parse_style s) (goodDict_parse_style s) hfl hbase

/-- Witness for the amended C4, at a style string exercising a bare base
style, a string value, a boolean and an integer. -/
theorem c4_amended_fixed_point_witness :
    dictEquiv (parse_style (create_style (parse_style
      "rounded;fillColor=#f5f5f5;dashed=true;opacity=50".toList)))
      (parse_style "rounded;fillColor=#f5f5f5;dashed=true;opacity=50".toList) :=
  c4_amended_fixed_point _ (by decide) (by decide)
